import Mathlib

/-!
Verification of the raytracer repository (TypeScript + WGSL) against its
natural-language specification.

Embedding conventions:
* GPU/JS floating-point numbers (`f32` / JS `number`) are modelled as exact
  rationals.  Because `Rat` arithmetic does not reduce inside the Lean kernel,
  we use our own canonical fraction type `F` (integer numerator, positive
  natural denominator, gcd-reduced) for all executable definitions, together
  with a semantics map `toQ : F → ℚ` and homomorphism lemmas used by the
  algebraic proofs.  Division by zero is junk (evaluates to `0`), matching
  Lean's `ℚ` convention; every place where the source can actually divide by
  zero is discussed at its definition site.
* `u32` arithmetic is `ℕ` with explicit reduction `% 2^32`.
* GPU transcendental builtins (`sqrt`, `sin`, `cos`) have no exact rational
  counterpart; executable definitions take them as an explicit parameter
  bundle `GpuMath`.  Theorems about program structure hold for every bundle;
  concrete runs instantiate the bundle with a function that is exact on the
  (rational-valued) arguments actually reached.
* Unbounded loops (`while`, recursion on tree shapes) are given an explicit
  fuel argument so that every definition is structurally recursive and
  kernel-computable; the theorems either hold for every fuel or supply a
  provably sufficient fuel.
-/

/-- Canonical fraction: numerator `n : ℤ`, denominator `d : ℕ` with `0 < d`.
All constructors go through `F.norm`, so values are gcd-reduced and
structurally canonical. This is the model of `f32`/JS `number`. -/
structure F where
  n : Int
  d : Nat
  pos : 0 < d

/-- Zero fraction. -/
def F.zero : F := ⟨0, 1, Nat.one_pos⟩

/-- One. -/
def F.one : F := ⟨1, 1, Nat.one_pos⟩

/-- Embed an integer. -/
def F.ofInt (i : Int) : F := ⟨i, 1, Nat.one_pos⟩

/-- Embed a natural number. -/
def F.ofNat (m : Nat) : F := ⟨(m : Int), 1, Nat.one_pos⟩

theorem F.norm_den_dvd (a : Int) (b : Nat) : a.gcd (b : Int) ∣ b :=
  Int.natCast_dvd_natCast.mp Int.gcd_dvd_right

/-- Build the canonical (gcd-reduced) fraction `a / b` for `0 < b`. -/
def F.norm (a : Int) (b : Nat) (h : 0 < b) : F :=
  if hg : a.gcd (b : Int) = 0 then
    ⟨0, 1, Nat.one_pos⟩
  else
    ⟨a / (a.gcd (b : Int) : Int), b / a.gcd (b : Int),
      Nat.div_pos (Nat.le_of_dvd h (F.norm_den_dvd a b)) (Nat.pos_of_ne_zero hg)⟩

/-- Addition. -/
def F.add (x y : F) : F :=
  F.norm (x.n * (y.d : Int) + y.n * (x.d : Int)) (x.d * y.d) (Nat.mul_pos x.pos y.pos)

/-- Negation. -/
def F.neg (x : F) : F := ⟨-x.n, x.d, x.pos⟩

/-- Subtraction. -/
def F.sub (x y : F) : F := x.add y.neg

/-- Multiplication. -/
def F.mul (x y : F) : F :=
  F.norm (x.n * y.n) (x.d * y.d) (Nat.mul_pos x.pos y.pos)

/-- Reciprocal; `0` maps to `0` (junk value, same convention as `ℚ`). -/
def F.inv (x : F) : F :=
  if h : x.n = 0 then F.zero
  else
    F.norm ((if x.n < 0 then -1 else 1) * (x.d : Int)) x.n.natAbs
      (Int.natAbs_pos.mpr h)

/-- Division (`x / 0 = 0`, junk). -/
def F.div (x y : F) : F := x.mul y.inv

/-- Order: `x ≤ y` via cross multiplication (denominators are positive). -/
def F.le (x y : F) : Prop := x.n * (y.d : Int) ≤ y.n * (x.d : Int)

/-- Strict order. -/
def F.lt (x y : F) : Prop := x.n * (y.d : Int) < y.n * (x.d : Int)

/-- Value equality via cross multiplication. -/
def F.eqv (x y : F) : Prop := x.n * (y.d : Int) = y.n * (x.d : Int)

instance (x y : F) : Decidable (F.le x y) := by unfold F.le; infer_instance

instance (x y : F) : Decidable (F.lt x y) := by unfold F.lt; infer_instance

instance (x y : F) : Decidable (F.eqv x y) := by unfold F.eqv; infer_instance

/-- Semantics of a fraction as a rational number. -/
def toQ (x : F) : ℚ := (x.n : ℚ) / (x.d : ℚ)

theorem toQ_den_pos (x : F) : (0 : ℚ) < (x.d : ℚ) := by exact_mod_cast x.pos

theorem toQ_norm (a : Int) (b : Nat) (h : 0 < b) :
    toQ (F.norm a b h) = (a : ℚ) / (b : ℚ) := by
  have hg : a.gcd (b : Int) ≠ 0 := by
    intro h0
    rcases Int.gcd_eq_zero_iff.mp h0 with ⟨_, hb0⟩
    have hb : b = 0 := by exact_mod_cast hb0
    omega
  unfold F.norm
  rw [dif_neg hg]
  unfold toQ
  have hga : ((a.gcd (b : Int) : ℕ) : Int) ∣ a := Int.gcd_dvd_left
  have hgbn : a.gcd (b : Int) ∣ b := F.norm_den_dvd a b
  have hgq : ((a.gcd (b : Int) : ℕ) : ℚ) ≠ 0 := by exact_mod_cast hg
  have hbq : ((b : ℕ) : ℚ) ≠ 0 := by
    have := h; intro hb; exact absurd (by exact_mod_cast hb : b = 0) (by omega)
  rw [Int.cast_div_charZero hga, Nat.cast_div hgbn hgq]
  push_cast
  field_simp

theorem toQ_zero : toQ F.zero = 0 := by simp [F.zero, toQ]

theorem toQ_one : toQ F.one = 1 := by simp [F.one, toQ]

theorem toQ_ofInt (i : Int) : toQ (F.ofInt i) = (i : ℚ) := by simp [F.ofInt, toQ]

theorem toQ_ofNat (m : Nat) : toQ (F.ofNat m) = (m : ℚ) := by simp [F.ofNat, toQ]

theorem toQ_add (x y : F) : toQ (x.add y) = toQ x + toQ y := by
  unfold F.add
  rw [toQ_norm]
  unfold toQ
  rw [div_add_div _ _ (ne_of_gt (toQ_den_pos x)) (ne_of_gt (toQ_den_pos y))]
  push_cast
  ring_nf

theorem toQ_neg (x : F) : toQ x.neg = -toQ x := by
  unfold F.neg toQ
  push_cast
  ring

theorem toQ_sub (x y : F) : toQ (x.sub y) = toQ x - toQ y := by
  unfold F.sub
  rw [toQ_add, toQ_neg]
  ring

theorem toQ_mul (x y : F) : toQ (x.mul y) = toQ x * toQ y := by
  unfold F.mul
  rw [toQ_norm]
  unfold toQ
  rw [div_mul_div_comm]
  push_cast
  ring_nf

theorem toQ_inv (x : F) : toQ x.inv = (toQ x)⁻¹ := by
  unfold F.inv
  by_cases h : x.n = 0
  · rw [dif_pos h, toQ_zero]
    have : toQ x = 0 := by unfold toQ; rw [h]; simp
    rw [this, inv_zero]
  · rw [dif_neg h, toQ_norm]
    unfold toQ
    rw [inv_div]
    rcases lt_or_gt_of_ne h with hneg | hpos
    · rw [if_pos hneg]
      have habs : ((x.n.natAbs : ℕ) : Int) = -x.n :=
        Int.ofNat_natAbs_of_nonpos (le_of_lt hneg)
      have habsq : ((x.n.natAbs : ℕ) : ℚ) = -(x.n : ℚ) := by
        rw [Int.cast_natAbs, Int.cast_abs]
        exact abs_of_neg (show (x.n : ℚ) < 0 by exact_mod_cast hneg)
      rw [habsq, neg_one_mul]
      push_cast
      rw [neg_div_neg_eq]
    · rw [if_neg (not_lt.mpr (le_of_lt hpos))]
      have habsq : ((x.n.natAbs : ℕ) : ℚ) = (x.n : ℚ) := by
        rw [Int.cast_natAbs, Int.cast_abs]
        exact abs_of_pos (show (0 : ℚ) < (x.n : ℚ) by exact_mod_cast hpos)
      rw [habsq, one_mul]
      push_cast
      rfl

theorem toQ_div (x y : F) : toQ (x.div y) = toQ x / toQ y := by
  unfold F.div
  rw [toQ_mul, toQ_inv, div_eq_mul_inv]

theorem F.le_iff (x y : F) : x.le y ↔ toQ x ≤ toQ y := by
  unfold F.le toQ
  rw [div_le_div_iff₀ (toQ_den_pos x) (toQ_den_pos y)]
  constructor
  · intro h; exact_mod_cast h
  · intro h; exact_mod_cast h

theorem F.lt_iff (x y : F) : x.lt y ↔ toQ x < toQ y := by
  unfold F.lt toQ
  rw [div_lt_div_iff₀ (toQ_den_pos x) (toQ_den_pos y)]
  constructor
  · intro h; exact_mod_cast h
  · intro h; exact_mod_cast h

theorem F.eqv_iff (x y : F) : x.eqv y ↔ toQ x = toQ y := by
  unfold F.eqv toQ
  rw [div_eq_div_iff (ne_of_gt (toQ_den_pos x)) (ne_of_gt (toQ_den_pos y))]
  constructor
  · intro h; exact_mod_cast h
  · intro h; exact_mod_cast h

/-- Fraction literal `a / b` (used for source constants such as `0.01`);
junk `0` when `b = 0`. -/
def F.frac (a : Int) (b : Nat) : F :=
  if h : 0 < b then F.norm a b h else F.zero

theorem toQ_frac (a : Int) (b : Nat) (h : 0 < b) :
    toQ (F.frac a b) = (a : ℚ) / (b : ℚ) := by
  unfold F.frac
  rw [dif_pos h, toQ_norm]

/-- WGSL `min`. -/
def F.fmin (a b : F) : F := if b.lt a then b else a

/-- WGSL `max`. -/
def F.fmax (a b : F) : F := if a.lt b then b else a

/-- WGSL `clamp(x, lo, hi) = min(max(x, lo), hi)`. -/
def F.clamp (x lo hi : F) : F := (x.fmax lo).fmin hi

/-- WGSL `saturate(x) = clamp(x, 0, 1)`. -/
def F.saturate (x : F) : F := x.clamp F.zero F.one

/-- WGSL `abs`. -/
def F.abs (x : F) : F := if x.lt F.zero then x.neg else x

/-- `f32` to `u32` conversion: truncate toward zero, negative values clamp
to `0` (WGSL saturating conversion). -/
def F.toU32 (x : F) : Nat := x.n.toNat / x.d

theorem toQ_fmin (a b : F) : toQ (a.fmin b) = min (toQ a) (toQ b) := by
  unfold F.fmin
  by_cases h : b.lt a
  · rw [if_pos h, min_eq_right (le_of_lt ((F.lt_iff b a).mp h))]
  · rw [if_neg h, min_eq_left (le_of_not_lt (fun hc => h ((F.lt_iff b a).mpr hc)))]

theorem toQ_fmax (a b : F) : toQ (a.fmax b) = max (toQ a) (toQ b) := by
  unfold F.fmax
  by_cases h : a.lt b
  · rw [if_pos h, max_eq_right (le_of_lt ((F.lt_iff a b).mp h))]
  · rw [if_neg h, max_eq_left (le_of_not_lt (fun hc => h ((F.lt_iff a b).mpr hc)))]

theorem toQ_clamp (x lo hi : F) :
    toQ (x.clamp lo hi) = min (max (toQ x) (toQ lo)) (toQ hi) := by
  unfold F.clamp
  rw [toQ_fmin, toQ_fmax]

/-- 3-component `f32` vector (WGSL `vec3<f32>`, TS `Vec3`). -/
structure V3 where
  x : F
  y : F
  z : F

def V3.zero : V3 := ⟨F.zero, F.zero, F.zero⟩

def vadd (a b : V3) : V3 := ⟨a.x.add b.x, a.y.add b.y, a.z.add b.z⟩

def vsub (a b : V3) : V3 := ⟨a.x.sub b.x, a.y.sub b.y, a.z.sub b.z⟩

/-- Componentwise product (WGSL `vec * vec`). -/
def vmul (a b : V3) : V3 := ⟨a.x.mul b.x, a.y.mul b.y, a.z.mul b.z⟩

/-- Scalar times vector. -/
def vscale (s : F) (a : V3) : V3 := ⟨s.mul a.x, s.mul a.y, s.mul a.z⟩

def vdivF (a : V3) (s : F) : V3 := ⟨a.x.div s, a.y.div s, a.z.div s⟩

def vdot (a b : V3) : F := ((a.x.mul b.x).add (a.y.mul b.y)).add (a.z.mul b.z)

def vcross (a b : V3) : V3 :=
  ⟨(a.y.mul b.z).sub (a.z.mul b.y),
   (a.z.mul b.x).sub (a.x.mul b.z),
   (a.x.mul b.y).sub (a.y.mul b.x)⟩

/-- Componentwise `≤` on vectors (used to state componentwise bounds). -/
def vle (a b : V3) : Prop := a.x.le b.x ∧ a.y.le b.y ∧ a.z.le b.z

instance (a b : V3) : Decidable (vle a b) := by unfold vle; infer_instance

/-- GPU transcendental builtins, supplied as parameters (see header). -/
structure GpuMath where
  sqrtF : F → F
  cosF : F → F
  sinF : F → F

/-- WGSL `normalize(v) = v / sqrt(dot(v, v))`. -/
def normalizeV (g : GpuMath) (v : V3) : V3 := vdivF v (g.sqrtF (vdot v v))

/-- WGSL `reflect(e, n) = e - 2 * dot(e, n) * n`. -/
def reflectV (e nrm : V3) : V3 :=
  vsub e (vscale ((F.ofNat 2).mul (vdot e nrm)) nrm)

/-- WGSL `mix(x, y, a) = x * (1 - a) + y * a`, scalar. -/
def mixF (a b t : F) : F := (a.mul (F.one.sub t)).add (b.mul t)

/-- WGSL `mix` on vectors with scalar interpolant. -/
def mixV (a b : V3) (t : F) : V3 :=
  ⟨mixF a.x b.x t, mixF a.y b.y t, mixF a.z b.z t⟩

/-- `u32` wrap-around. -/
def u32 (m : Nat) : Nat := m % 4294967296

/-- `rand_f` from `public/common.wgsl`: LCG advance, xorshift output, scaled
by `bitcast<f32>(0x2f800004u) = (2^21 + 1) / 2^53`.  Returns the new state
and the draw. -/
def rand_f (state : Nat) : Nat × F :=
  let s := u32 (state * 747796405 + 2891336453)
  let word := u32 (u32 ((s >>> ((s >>> 28) + 4)) ^^^ s) * 277803737)
  (s, F.norm ((((word >>> 22) ^^^ word) * 2097153 : Nat) : Int) 9007199254740992 (by norm_num))

/-- `wang_hash` from `public/common.wgsl`. -/
def wang_hash (s : Nat) : Nat :=
  let n1 := u32 ((s ^^^ 61) ^^^ (s >>> 16))
  let n2 := u32 (n1 * 9)
  let n3 := u32 (n2 ^^^ (n2 >>> 4))
  let n4 := u32 (n3 * 0x27d4eb2d)
  u32 (n4 ^^^ (n4 >>> 15))

/-- WGSL `Sphere` (struct fields as in `public/common.wgsl`). -/
structure Sphere where
  center : V3
  radius : F
  color : V3
  smoothness : F
  emissionColor : V3
  emissionStrength : F
  specularProbability : F

/-- WGSL `Triangle`. -/
structure Triangle where
  v0 : V3
  v1 : V3
  v2 : V3
  color : V3
  emissionColor : V3
  emissionStrength : F
  smoothness : F
  specularProbability : F

instance : Inhabited Triangle :=
  ⟨⟨V3.zero, V3.zero, V3.zero, V3.zero, V3.zero, F.zero, F.zero, F.zero⟩⟩

/-- WGSL `Ray`. -/
structure Ray where
  origin : V3
  direction : V3

/-- WGSL `HitInfo`. -/
structure HitInfo where
  t : F
  color : V3
  normal : V3
  emission : V3
  smoothness : F
  specularProbability : F

/-- `HitInfo(-1.0, vec3(), vec3(), vec3(), 0, 0)` — the miss value. -/
def noHit : HitInfo := ⟨F.ofInt (-1), V3.zero, V3.zero, V3.zero, F.zero, F.zero⟩

instance : Inhabited HitInfo := ⟨noHit⟩

/-- `ray_sphere_intersect` from `public/common.wgsl` lines 128-159.
Note: the `t2 > 0.01` branch stores `t1` in the returned record, exactly as
the source does (`return HitInfo(t1, ...)` on line 155). -/
def ray_sphere_intersect (g : GpuMath) (ray : Ray) (sphere : Sphere) : HitInfo :=
  let oc := vsub ray.origin sphere.center
  let a := vdot ray.direction ray.direction
  let b := (F.ofNat 2).mul (vdot oc ray.direction)
  let c := (vdot oc oc).sub (sphere.radius.mul sphere.radius)
  let discriminant := (b.mul b).sub (((F.ofNat 4).mul a).mul c)
  if discriminant.lt F.zero then noHit
  else
    let sqrt_discriminant := g.sqrtF discriminant
    let t1 := (b.neg.sub sqrt_discriminant).div ((F.ofNat 2).mul a)
    let t2 := (b.neg.add sqrt_discriminant).div ((F.ofNat 2).mul a)
    let emission := vscale sphere.emissionStrength sphere.emissionColor
    if (F.frac 1 100).lt t1 then
      let hit_point := vadd ray.origin (vscale t1 ray.direction)
      let nrm := normalizeV g (vsub hit_point sphere.center)
      ⟨t1, sphere.color, nrm, emission, sphere.smoothness, sphere.specularProbability⟩
    else if (F.frac 1 100).lt t2 then
      let hit_point := vadd ray.origin (vscale t2 ray.direction)
      let nrm := normalizeV g (vsub hit_point sphere.center)
      ⟨t1, sphere.color, nrm, emission, sphere.smoothness, sphere.specularProbability⟩
    else noHit

/-- The value of the smaller and larger quadratic roots of
`ray_sphere_intersect` (for stating what the `t2` branch should return). -/
def sphere_root2 (g : GpuMath) (ray : Ray) (sphere : Sphere) : F :=
  let oc := vsub ray.origin sphere.center
  let a := vdot ray.direction ray.direction
  let b := (F.ofNat 2).mul (vdot oc ray.direction)
  let c := (vdot oc oc).sub (sphere.radius.mul sphere.radius)
  let discriminant := (b.mul b).sub (((F.ofNat 4).mul a).mul c)
  (b.neg.add (g.sqrtF discriminant)).div ((F.ofNat 2).mul a)

/-- `ray_triangle_intersect` from `public/common.wgsl` lines 161-202
(Möller-Trumbore with determinant epsilon `0.0001`, minimum `t` of `0.001`,
and back-face culling). -/
def ray_triangle_intersect (g : GpuMath) (ray : Ray) (tri : Triangle) : HitInfo :=
  let edge01 := vsub tri.v1 tri.v0
  let edge02 := vsub tri.v2 tri.v0
  let h := vcross ray.direction edge02
  let a := vdot edge01 h
  if (a.abs).lt (F.frac 1 10000) then noHit
  else
    let f := F.one.div a
    let s := vsub ray.origin tri.v0
    let u := f.mul (vdot s h)
    if u.lt F.zero ∨ F.one.lt u then noHit
    else
      let q := vcross s edge01
      let v := f.mul (vdot ray.direction q)
      if v.lt F.zero ∨ F.one.lt (u.add v) then noHit
      else
        let t := f.mul (vdot edge02 q)
        if t.lt (F.frac 1 1000) then noHit
        else
          let nrm := normalizeV g (vcross edge01 edge02)
          if F.zero.lt (vdot nrm ray.direction) then noHit
          else
            let emission := vscale tri.emissionStrength tri.emissionColor
            ⟨t, tri.color, nrm, emission, tri.smoothness, tri.specularProbability⟩

/-- Integer square root by fixed binary search over 64 bit positions
(kernel-computable; exact for every `n < 2^128`). -/
def isqrt (m : Nat) : Nat :=
  (List.range 64).reverse.foldl
    (fun r k => let c := r + 2 ^ k; if c * c ≤ m then c else r) 0

/-- A concrete `sqrt` oracle: exact on perfect squares of fractions (the only
points at which the concrete runs below consult it for values that matter),
`0` elsewhere. -/
def ratSqrt (x : F) : F :=
  if h : 0 ≤ x.n ∧ isqrt x.n.natAbs * isqrt x.n.natAbs = x.n.natAbs ∧
      isqrt x.d * isqrt x.d = x.d ∧ 0 < isqrt x.d then
    F.norm (Int.ofNat (isqrt x.n.natAbs)) (isqrt x.d) h.2.2.2
  else F.zero

/-- Concrete transcendental bundle used by the concrete runs; `cos`/`sin`
results only ever flow into discarded values there. -/
def gExact : GpuMath := ⟨ratSqrt, fun _ => F.zero, fun _ => F.zero⟩

/-- The shader constant `PI = 3.14159265358979323846`. -/
def piF : F := F.frac 314159265358979323846 100000000000000000000

/-- Modelled from the spec: `luminance` is called by the path-tracing kernel
(appended shader in `src/src/BVH.ts`) but its definition is not under `src/`;
the spec glossary fixes `luminance = 0.2126·R + 0.7152·G + 0.0722·B`. -/
def luminance (c : V3) : F :=
  (((F.frac 2126 10000).mul c.x).add ((F.frac 7152 10000).mul c.y)).add
    ((F.frac 722 10000).mul c.z)

/-- Modelled from the spec: `triangle_area` is called by the light-sampling
code but is not under `src/`; the spec (§4.4) uses the emissive triangle's
area, i.e. `|cross(v1-v0, v2-v0)| / 2`. -/
def triangle_area (g : GpuMath) (tri : Triangle) : F :=
  let c := vcross (vsub tri.v1 tri.v0) (vsub tri.v2 tri.v0)
  (F.frac 1 2).mul (g.sqrtF (vdot c c))

/-- Modelled from the spec: `sample_triangle_point` is called by the
light-sampling code but is not under `src/`; the spec (§4.4) prescribes a
uniform point via barycentrics `(1-√u, √u·(1-v), √u·v)` from two uniform
draws. -/
def sample_triangle_point (g : GpuMath) (tri : Triangle) (state : Nat) : V3 × Nat :=
  let p1 := rand_f state
  let p2 := rand_f p1.1
  let su := g.sqrtF p1.2
  let b0 := F.one.sub su
  let b1 := su.mul (F.one.sub p2.2)
  let b2 := su.mul p2.2
  (vadd (vadd (vscale b0 tri.v0) (vscale b1 tri.v1)) (vscale b2 tri.v2), p2.1)

/-- Modelled from the spec: `ray_aabb_intersect` is called by the BVH
traversal (appended shader in `src/src/BVH.ts`, line 596) but is not under
`src/`; the spec (§4.4) prescribes "slab test with standard near-plane
clamp".  Per axis with nonzero direction the slab is
`[min((lo-o)/d,(hi-o)/d), max(...)]`; a zero direction component passes iff
the origin lies inside that axis' range (the infinite-slab limit); the ray
hits iff `max(0, all near values) ≤ min(all far values)`. -/
def ray_aabb_intersect (ray : Ray) (bmin bmax : V3) : Bool :=
  let axes : List (F × F × F × F) :=
    [(ray.origin.x, ray.direction.x, bmin.x, bmax.x),
     (ray.origin.y, ray.direction.y, bmin.y, bmax.y),
     (ray.origin.z, ray.direction.z, bmin.z, bmax.z)]
  let parOk := axes.all fun a =>
    !(decide (a.2.1.eqv F.zero)) || (decide (a.2.2.1.le a.1) && decide (a.1.le a.2.2.2))
  let ts := (axes.filter fun a => decide (¬ a.2.1.eqv F.zero)).map fun a =>
    let t1 := (a.2.2.1.sub a.1).div a.2.1
    let t2 := (a.2.2.2.sub a.1).div a.2.1
    (t1.fmin t2, t1.fmax t2)
  let tmin := ts.foldl (fun acc p => acc.fmax p.1) F.zero
  let tmax : Option F :=
    ts.foldl (fun acc p => match acc with
      | none => some p.2
      | some m => some (m.fmin p.2)) none
  match tmax with
  | none => parOk
  | some tm => parOk && decide (tmin.le tm)

/-- `sample_cosine_hemisphere` from `public/common.wgsl` lines 98-125.
Returns the direction and the advanced RNG state (the WGSL function draws
two uniforms through the state pointer). -/
def sample_cosine_hemisphere (g : GpuMath) (nrm : V3) (state : Nat) : V3 × Nat :=
  let p1 := rand_f state
  let p2 := rand_f p1.1
  let phi := ((F.ofNat 2).mul piF).mul p1.2
  let cos_theta := g.sqrtF p2.2
  let sin_theta := g.sqrtF (F.one.sub p2.2)
  let local_dir : V3 := ⟨(g.cosF phi).mul sin_theta, cos_theta, (g.sinF phi).mul sin_theta⟩
  let up : V3 := if (F.frac 99 100).lt nrm.y.abs
    then ⟨F.one, F.zero, F.zero⟩ else ⟨F.zero, F.one, F.zero⟩
  let tangent := normalizeV g (vcross up nrm)
  let bitangent := vcross nrm tangent
  (normalizeV g
    (vadd (vadd (vscale local_dir.x tangent) (vscale local_dir.y nrm))
      (vscale local_dir.z bitangent)), p2.1)

/-- `power_heuristic` from the appended compute shader in `src/src/BVH.ts`
lines 789-793: `a² / (a² + b²)`. -/
def power_heuristic (pdf_a pdf_b : F) : F :=
  let a := pdf_a.mul pdf_a
  let b := pdf_b.mul pdf_b
  a.div (a.add b)

/-- `brdf_pdf` from the appended compute shader lines 796-802. -/
def brdf_pdf (hit_normal direction : V3) : F :=
  let cos_theta := vdot hit_normal direction
  if cos_theta.le F.zero then F.zero else cos_theta.div piF

/-- Flat BVH node as the compute shader sees it (all slots are `f32`). -/
structure BVHNodeF where
  min_bounds : V3
  max_bounds : V3
  left_or_triangle_start : F
  right_or_triangle_count : F
  is_leaf : F

instance : Inhabited BVHNodeF := ⟨⟨V3.zero, V3.zero, F.zero, F.zero, F.zero⟩⟩

/-- WGSL runtime array access; out-of-bounds indices are clamped to the last
element (the WebGPU robust-access behaviour we model). -/
def wgslGet {α : Type} [Inhabited α] (l : List α) (i : Nat) : α :=
  if l.length = 0 then default else l.getD (min i (l.length - 1)) default

/-- `u32` subtraction with wrap-around. -/
def u32sub (a b : Nat) : Nat := u32 (a + 4294967296 - u32 b)

/-- The storage arrays bound to the compute shader (bindings 1, 2, 4, 5). -/
structure SceneArrays where
  spheres : List Sphere
  triangles : List Triangle
  bvh_nodes : List BVHNodeF
  bvh_triangle_indices : List Nat

/-- The leaf case of the BVH traversal: loop over the node's triangle slice
keeping the closest positive hit (`hit.t > 0 && (closest.t < 0 || hit.t <
closest.t)`). -/
def bvhLeafScan (g : GpuMath) (sc : SceneArrays) (ray : Ray)
    (tstart : Nat) : Nat → Nat → HitInfo → HitInfo
  | _, 0, closest => closest
  | i, k + 1, closest =>
    let triangle_index := wgslGet sc.bvh_triangle_indices (tstart + i)
    let hit_info := ray_triangle_intersect g ray (wgslGet sc.triangles triangle_index)
    let closest' :=
      if F.zero.lt hit_info.t ∧ (closest.t.lt F.zero ∨ hit_info.t.lt closest.t)
      then hit_info else closest
    bvhLeafScan g sc ray tstart (i + 1) k closest'

def vneg (a : V3) : V3 := ⟨a.x.neg, a.y.neg, a.z.neg⟩

def vone : V3 := ⟨F.one, F.one, F.one⟩

/-- Stack events of the instrumented BVH traversal: reads/writes of `stack[i]`
and a `drop` of a suppressed push recording the stack size at that moment. -/
inductive StackEv where
  | readE : Nat → StackEv
  | writeE : Nat → StackEv
  | dropE : Nat → StackEv
deriving DecidableEq

/-- The `while (stack_ptr > 0u)` loop of `ray_bvh_triangles` (appended
compute shader in `src/src/BVH.ts`, lines 586-631), with fuel.  `stack` is
the 64-slot `array<u32, 64>`, `ptr` is `stack_ptr`; pushes are guarded by
`stack_ptr < stack_size - 1` with `stack_size = 64`. -/
def bvhLoop (g : GpuMath) (sc : SceneArrays) (ray : Ray) :
    Nat → List Nat → Nat → HitInfo → HitInfo
  | 0, _, _, closest => closest
  | fuel + 1, stack, ptr, closest =>
    if ptr = 0 then closest
    else
      let p := ptr - 1
      let node_index := stack.getD p 0
      if sc.bvh_nodes.length ≤ node_index then bvhLoop g sc ray fuel stack p closest
      else
        let node := wgslGet sc.bvh_nodes node_index
        if ¬ ray_aabb_intersect ray node.min_bounds node.max_bounds then
          bvhLoop g sc ray fuel stack p closest
        else if (F.frac 1 2).lt node.is_leaf then
          let tstart := node.left_or_triangle_start.toU32
          let tcount := node.right_or_triangle_count.toU32
          let maxT := min tcount (u32sub sc.bvh_triangle_indices.length tstart)
          bvhLoop g sc ray fuel stack p (bvhLeafScan g sc ray tstart 0 maxT closest)
        else
          let lc := node.left_or_triangle_start.toU32
          let rc := node.right_or_triangle_count.toU32
          let s1 := if p < 63 then stack.set p rc else stack
          let p1 := if p < 63 then p + 1 else p
          let s2 := if p1 < 63 then s1.set p1 lc else s1
          let p2 := if p1 < 63 then p1 + 1 else p1
          bvhLoop g sc ray fuel s2 p2 closest

/-- `ray_bvh_triangles` (appended compute shader lines 572-634), with fuel
for the traversal loop. -/
def ray_bvh_triangles (g : GpuMath) (sc : SceneArrays) (ray : Ray)
    (fuel : Nat) : HitInfo :=
  if sc.bvh_nodes.length = 0 then noHit
  else bvhLoop g sc ray fuel ((List.replicate 64 0).set 0 0) 1 noHit

/-- Instrumented copy of `bvhLoop` that additionally logs every stack read,
stack write, and suppressed push (with the stack size at suppression). -/
def bvhLoopEv (g : GpuMath) (sc : SceneArrays) (ray : Ray) :
    Nat → List Nat → Nat → HitInfo → List StackEv → HitInfo × List StackEv
  | 0, _, _, closest, evs => (closest, evs)
  | fuel + 1, stack, ptr, closest, evs =>
    if ptr = 0 then (closest, evs)
    else
      let p := ptr - 1
      let node_index := stack.getD p 0
      let evs1 := evs ++ [StackEv.readE p]
      if sc.bvh_nodes.length ≤ node_index then bvhLoopEv g sc ray fuel stack p closest evs1
      else
        let node := wgslGet sc.bvh_nodes node_index
        if ¬ ray_aabb_intersect ray node.min_bounds node.max_bounds then
          bvhLoopEv g sc ray fuel stack p closest evs1
        else if (F.frac 1 2).lt node.is_leaf then
          let tstart := node.left_or_triangle_start.toU32
          let tcount := node.right_or_triangle_count.toU32
          let maxT := min tcount (u32sub sc.bvh_triangle_indices.length tstart)
          bvhLoopEv g sc ray fuel stack p (bvhLeafScan g sc ray tstart 0 maxT closest) evs1
        else
          let lc := node.left_or_triangle_start.toU32
          let rc := node.right_or_triangle_count.toU32
          let evs2 := evs1 ++ (if p < 63 then [StackEv.writeE p] else [StackEv.dropE p])
          let s1 := if p < 63 then stack.set p rc else stack
          let p1 := if p < 63 then p + 1 else p
          let evs3 := evs2 ++ (if p1 < 63 then [StackEv.writeE p1] else [StackEv.dropE p1])
          let s2 := if p1 < 63 then s1.set p1 lc else s1
          let p2 := if p1 < 63 then p1 + 1 else p1
          bvhLoopEv g sc ray fuel s2 p2 closest evs3

/-- Instrumented `ray_bvh_triangles` (same result plus the stack event log). -/
def ray_bvh_trianglesEv (g : GpuMath) (sc : SceneArrays) (ray : Ray)
    (fuel : Nat) : HitInfo × List StackEv :=
  if sc.bvh_nodes.length = 0 then (noHit, [])
  else bvhLoopEv g sc ray fuel ((List.replicate 64 0).set 0 0) 1 noHit [StackEv.writeE 0]

/-- The claim's reading of the push guard: a push is suppressed only when it
would make the stack exceed its capacity of 64 (guard `stack_ptr <
stack_size` instead of `stack_ptr < stack_size - 1`).  Used to compare
against the code's actual behaviour. -/
def bvhLoopCap64 (g : GpuMath) (sc : SceneArrays) (ray : Ray) :
    Nat → List Nat → Nat → HitInfo → HitInfo
  | 0, _, _, closest => closest
  | fuel + 1, stack, ptr, closest =>
    if ptr = 0 then closest
    else
      let p := ptr - 1
      let node_index := stack.getD p 0
      if sc.bvh_nodes.length ≤ node_index then bvhLoopCap64 g sc ray fuel stack p closest
      else
        let node := wgslGet sc.bvh_nodes node_index
        if ¬ ray_aabb_intersect ray node.min_bounds node.max_bounds then
          bvhLoopCap64 g sc ray fuel stack p closest
        else if (F.frac 1 2).lt node.is_leaf then
          let tstart := node.left_or_triangle_start.toU32
          let tcount := node.right_or_triangle_count.toU32
          let maxT := min tcount (u32sub sc.bvh_triangle_indices.length tstart)
          bvhLoopCap64 g sc ray fuel stack p (bvhLeafScan g sc ray tstart 0 maxT closest)
        else
          let lc := node.left_or_triangle_start.toU32
          let rc := node.right_or_triangle_count.toU32
          let s1 := if p < 64 then stack.set p rc else stack
          let p1 := if p < 64 then p + 1 else p
          let s2 := if p1 < 64 then s1.set p1 lc else s1
          let p2 := if p1 < 64 then p1 + 1 else p1
          bvhLoopCap64 g sc ray fuel s2 p2 closest

/-- `ray_bvh_triangles` with the claim's capacity-64 push guard. -/
def ray_bvh_trianglesCap64 (g : GpuMath) (sc : SceneArrays) (ray : Ray)
    (fuel : Nat) : HitInfo :=
  if sc.bvh_nodes.length = 0 then noHit
  else bvhLoopCap64 g sc ray fuel ((List.replicate 64 0).set 0 0) 1 noHit

/-- The sphere loop of `ray_all` (appended compute shader lines 640-645). -/
def sphereScan (g : GpuMath) (spheres : List Sphere) (ray : Ray) : HitInfo :=
  spheres.foldl
    (fun closest sph =>
      let hit_info := ray_sphere_intersect g ray sph
      if F.zero.lt hit_info.t ∧ (closest.t.lt F.zero ∨ hit_info.t.lt closest.t)
      then hit_info else closest)
    noHit

/-- `ray_all` from the appended compute shader lines 636-654. -/
def ray_all (g : GpuMath) (sc : SceneArrays) (ray : Ray) (fuel : Nat) : HitInfo :=
  let closest := sphereScan g sc.spheres ray
  let triangle_hit := ray_bvh_triangles g sc ray fuel
  if F.zero.lt triangle_hit.t ∧ (closest.t.lt F.zero ∨ triangle_hit.t.lt closest.t)
  then triangle_hit else closest

/-- WGSL `LightSample` (fields as used by the shader). -/
structure LightSample where
  direction : V3
  emission : V3
  distance : F
  pdf : F

/-- The emissive power of a triangle as computed in `sample_light_triangles`:
`emissionStrength * area * luminance(emissionColor)`. -/
def lightPower (g : GpuMath) (tri : Triangle) : F :=
  (tri.emissionStrength.mul (triangle_area g tri)).mul (luminance tri.emissionColor)

/-- `sample_light_triangles` from the appended compute shader lines 657-722.
Returns the sample and the advanced RNG state. -/
def sample_light_triangles (g : GpuMath) (sc : SceneArrays) (hit_point : V3)
    (state : Nat) : LightSample × Nat :=
  let stats := sc.triangles.foldl
    (fun (acc : F × Nat) tri =>
      if tri.emissionStrength.le F.zero then acc
      else (acc.1.add (lightPower g tri), acc.2 + 1))
    (F.zero, 0)
  let total_power := stats.1
  let light_count := stats.2
  if light_count = 0 ∨ total_power.le F.zero then
    (⟨V3.zero, V3.zero, F.zero, F.zero⟩, state)
  else
    let pr := rand_f state
    let random_power := pr.2.mul total_power
    let sel := sc.triangles.foldl
      (fun (acc : F × Bool × Triangle) tri =>
        if F.zero.lt tri.emissionStrength then
          let acc' := acc.1.add (lightPower g tri)
          if random_power.le acc' ∧ acc.2.1 = false then (acc', true, tri)
          else (acc', acc.2.1, acc.2.2)
        else acc)
      (F.zero, false, default)
    let selected_triangle := sel.2.2
    let pp := sample_triangle_point g selected_triangle pr.1
    let light_point := pp.1
    let light_direction := vsub light_point hit_point
    let dist := g.sqrtF (vdot light_direction light_direction)
    let normalized_direction := vdivF light_direction dist
    let edge1 := vsub selected_triangle.v1 selected_triangle.v0
    let edge2 := vsub selected_triangle.v2 selected_triangle.v0
    let light_normal := normalizeV g (vcross edge1 edge2)
    let cos_light := (vdot light_normal normalized_direction).neg
    if cos_light.le F.zero then
      (⟨V3.zero, V3.zero, F.zero, F.zero⟩, pp.2)
    else
      let area := triangle_area g selected_triangle
      let power := lightPower g selected_triangle
      let pdf := ((dist.mul dist).div (area.mul cos_light)).mul (power.div total_power)
      let emission := vscale selected_triangle.emissionStrength selected_triangle.emissionColor
      (⟨normalized_direction, emission, dist, pdf⟩, pp.2)

/-- The `sky_color` of `ray_trace`: `vec3(1,1,1) * 0.4`. -/
def sky_color : V3 := vscale (F.frac 4 10) vone

/-- The bounce loop of `ray_trace` (appended compute shader lines 811-890).
`rem` is the number of remaining iterations (`maxBounceCount - i`), `i` the
current bounce index (Russian roulette fires for `i ≥ 3`); `fuelT` is the
traversal fuel handed to every `ray_all`.  Returns the accumulated light and
the final RNG state. -/
def rayTraceLoop (g : GpuMath) (sc : SceneArrays) (fuelT : Nat) :
    Nat → Nat → Ray → V3 → V3 → Bool → Nat → V3 × Nat
  | 0, _, _, _, light, _, state => (light, state)
  | rem + 1, i, current_ray, color, light, is_specular_bounce, state =>
    let hit_info := ray_all g sc current_ray fuelT
    if hit_info.t.lt F.zero then
      (vadd light (vmul sky_color color), state)
    else
      let hit_point := vadd current_ray.origin (vscale hit_info.t current_ray.direction)
      let ts := sample_light_triangles g sc hit_point state
      let triangle_sample := ts.1
      let light1 :=
        if F.zero.lt triangle_sample.pdf then
          let cos_theta := vdot hit_info.normal triangle_sample.direction
          if F.zero.lt cos_theta then
            let shadow_ray : Ray :=
              ⟨vadd hit_point (vscale (F.frac 1 100) hit_info.normal), triangle_sample.direction⟩
            let shadow_hit := ray_all g sc shadow_ray fuelT
            if shadow_hit.t.lt F.zero ∨ (triangle_sample.distance.sub (F.frac 1 10)).lt shadow_hit.t then
              let brdf_pdf_val := brdf_pdf hit_info.normal triangle_sample.direction
              let mis_weight := power_heuristic triangle_sample.pdf brdf_pdf_val
              let brdf := cos_theta.div piF
              vadd light
                (vdivF (vscale mis_weight (vmul (vscale brdf triangle_sample.emission) color))
                  triangle_sample.pdf)
            else light
          else light
        else light
      let is_primary_ray := i = 0
      let is_emissive :=
        (F.frac 1 100).lt ((hit_info.emission.x.add hit_info.emission.y).add hit_info.emission.z)
      let light2 :=
        if (is_primary_ray ∧ is_emissive) ∨ is_specular_bounce = true then
          let incoming_dir := vneg (normalizeV g current_ray.direction)
          let brdf_pdf_val := brdf_pdf hit_info.normal incoming_dir
          let light_pdf_estimate := F.frac 1 1000
          let mis_weight := power_heuristic brdf_pdf_val light_pdf_estimate
          vadd light1 (vscale mis_weight (vmul hit_info.emission color))
        else light1
      let color2 := vmul color hit_info.color
      if ((color2.x.add color2.y).add color2.z).lt (F.frac 1 100) then (light2, ts.2)
      else
        let rr : Option (V3 × Nat) × V3 × Nat :=
          if 3 ≤ i then
            let lum := luminance color2
            let p := lum.clamp (F.frac 5 100) (F.frac 95 100)
            let dr := rand_f ts.2
            if p.lt dr.2 then (some (light2, dr.1), color2, dr.1)
            else (none, vdivF color2 p, dr.1)
          else (none, color2, ts.2)
        match rr with
        | (some out, _, _) => out
        | (none, color3, s1) =>
          let sr := rand_f s1
          let is_spec := sr.2.le hit_info.specularProbability
          let dd := sample_cosine_hemisphere g hit_info.normal sr.1
          let diffuseDir := dd.1
          let specularDir := reflectV current_ray.direction hit_info.normal
          let new_direction :=
            normalizeV g (mixV diffuseDir specularDir
              (if is_spec then hit_info.smoothness else F.zero))
          let new_origin :=
            vadd (vadd current_ray.origin (vscale hit_info.t current_ray.direction))
              (vscale (F.frac 1 100) hit_info.normal)
          rayTraceLoop g sc fuelT rem (i + 1) ⟨new_origin, new_direction⟩ color3 light2 is_spec dd.2

/-- `ray_trace` from the appended compute shader lines 804-893. -/
def ray_trace (g : GpuMath) (sc : SceneArrays) (ray : Ray)
    (maxBounceCount : Nat) (state : Nat) (fuelT : Nat) : V3 × Nat :=
  rayTraceLoop g sc fuelT maxBounceCount 0 ray vone V3.zero false state

/-- TS `BoundingBox`. -/
structure BBox where
  bmin : V3
  bmax : V3

/-- Positional component access `v[axis]` (axes 0/1/2). -/
def vcomp (v : V3) : Nat → F
  | 0 => v.x
  | 1 => v.y
  | _ => v.z

/-- `BVH.calculateTriangleCentroid` (`src/src/BVH.ts` lines 87-94). -/
def calculateTriangleCentroid (tris : List Triangle) (i : Nat) : V3 :=
  let t := tris.getD i default
  ⟨((t.v0.x.add t.v1.x).add t.v2.x).div (F.ofNat 3),
   ((t.v0.y.add t.v1.y).add t.v2.y).div (F.ofNat 3),
   ((t.v0.z.add t.v1.z).add t.v2.z).div (F.ofNat 3)⟩

def centroidOnAxis (tris : List Triangle) (axis : Nat) (i : Nat) : F :=
  vcomp (calculateTriangleCentroid tris i) axis

/-- Expand a box to contain a vertex (the `Math.min`/`Math.max` update). -/
def bboxExpand (bb : BBox) (v : V3) : BBox :=
  ⟨⟨bb.bmin.x.fmin v.x, bb.bmin.y.fmin v.y, bb.bmin.z.fmin v.z⟩,
   ⟨bb.bmax.x.fmax v.x, bb.bmax.y.fmax v.y, bb.bmax.z.fmax v.z⟩⟩

def bboxExpandTriangle (bb : BBox) (t : Triangle) : BBox :=
  bboxExpand (bboxExpand (bboxExpand bb t.v0) t.v1) t.v2

/-- `BVH.calculateBoundingBoxForTriangles` (lines 187-224): seeded with the
first listed triangle's `v0`, empty list gives the zero box. -/
def calculateBoundingBoxForTriangles (tris : List Triangle) (idxs : List Nat) : BBox :=
  match idxs with
  | [] => ⟨V3.zero, V3.zero⟩
  | i0 :: _ =>
    let fv := (tris.getD i0 default).v0
    idxs.foldl (fun bb i => bboxExpandTriangle bb (tris.getD i default)) ⟨fv, fv⟩

/-- `BVH.calculateSceneBoundingBox` (lines 52-85). -/
def calculateSceneBoundingBox (tris : List Triangle) : BBox :=
  match tris with
  | [] => ⟨V3.zero, V3.zero⟩
  | t0 :: _ =>
    tris.foldl (fun bb t => bboxExpandTriangle bb t) ⟨t0.v0, t0.v0⟩

/-- `BVH.calculateSurfaceArea` (lines 96-105): `2(wh + wd + hd)`. -/
def calculateSurfaceArea (bb : BBox) : F :=
  let sx := bb.bmax.x.sub bb.bmin.x
  let sy := bb.bmax.y.sub bb.bmin.y
  let sz := bb.bmax.z.sub bb.bmin.z
  (F.ofNat 2).mul (((sx.mul sy).add (sx.mul sz)).add (sy.mul sz))

/-- Stable insertion into a sorted list: an inserted element goes before the
first strictly greater key, so earlier elements with equal keys stay first. -/
def insertByKey {α : Type} (key : α → F) (x : α) : List α → List α
  | [] => [x]
  | y :: ys => if (key y).lt (key x) then y :: insertByKey key x ys else x :: y :: ys

/-- Stable sort by a fractional key; models JS `Array.prototype.sort` with
the comparator `(a, b) => key(a) - key(b)` (ascending and stable per the
ECMAScript specification). -/
def sortByKey {α : Type} (key : α → F) : List α → List α
  | [] => []
  | x :: xs => insertByKey key x (sortByKey key xs)

/-- One SAH candidate: split axis, split position, SAH cost. -/
def SAHCand : Type := Nat × F × F

/-- The candidate splits of one axis in `BVH.findBestSAHSplit`
(lines 122-174): positions `i = 1 .. n-1` between adjacent sorted centroids,
cost `C = C_T + C_I (SA_L/SA · i + SA_R/SA · (n - i))` with
`C_T = C_I = 1`. -/
def sahCandidatesForAxis (tris : List Triangle) (idxs : List Nat)
    (nodeSurfaceArea : F) (axis : Nat) : List SAHCand :=
  let sortedIdx := sortByKey (centroidOnAxis tris axis) idxs
  (List.range' 1 (idxs.length - 1)).map fun i =>
    let splitPosition :=
      ((centroidOnAxis tris axis (sortedIdx.getD (i - 1) 0)).add
        (centroidOnAxis tris axis (sortedIdx.getD i 0))).mul (F.frac 1 2)
    let leftTriangles := sortedIdx.take i
    let rightTriangles := sortedIdx.drop i
    let leftSurfaceArea := calculateSurfaceArea (calculateBoundingBoxForTriangles tris leftTriangles)
    let rightSurfaceArea := calculateSurfaceArea (calculateBoundingBoxForTriangles tris rightTriangles)
    let cost :=
      F.one.add (F.one.mul
        (((leftSurfaceArea.div nodeSurfaceArea).mul (F.ofNat leftTriangles.length)).add
          ((rightSurfaceArea.div nodeSurfaceArea).mul (F.ofNat rightTriangles.length))))
    (axis, splitPosition, cost)

/-- Is candidate `c` strictly better than the current best?  `none` is the
initial `bestCost = Infinity`. -/
def costBetter (best : Option SAHCand) (c : SAHCand) : Bool :=
  match best with
  | none => true
  | some b => decide (c.2.2.lt b.2.2)

/-- The running-minimum scan of `findBestSAHSplit`.  When the node's surface
area is `0`, every JS cost is `NaN` (`0/0`, since any sub-box of a
zero-surface box also has surface 0) and the `cost < bestCost` update never
fires; the `¬ nodeSurfaceArea = 0` conjunct reproduces exactly that. -/
def sahBest (nodeSurfaceArea : F) (cands : List SAHCand) : Option SAHCand :=
  cands.foldl
    (fun best c =>
      if ¬ nodeSurfaceArea.eqv F.zero ∧ costBetter best c = true then some c else best)
    none

/-- The full candidate list of `findBestSAHSplit`: axes 0, 1, 2 in scan
order. -/
def sahAllCandidates (tris : List Triangle) (idxs : List Nat)
    (nodeSurfaceArea : F) : List SAHCand :=
  sahCandidatesForAxis tris idxs nodeSurfaceArea 0 ++
  sahCandidatesForAxis tris idxs nodeSurfaceArea 1 ++
  sahCandidatesForAxis tris idxs nodeSurfaceArea 2

/-- `BVH.findBestSAHSplit` (lines 107-185): scan the three axes in order,
then compare the best cost against the leaf cost `C_I · n`. -/
def findBestSAHSplit (tris : List Triangle) (idxs : List Nat) (box : BBox) :
    Option SAHCand :=
  let nodeSurfaceArea := calculateSurfaceArea box
  let cands := sahAllCandidates tris idxs nodeSurfaceArea
  match sahBest nodeSurfaceArea cands with
  | none => none
  | some b => if (F.one.mul (F.ofNat idxs.length)).le b.2.2 then none else some b

/-- Build-time BVH tree.  A leaf keeps its triangle indices; an internal
node's list is cleared by the source, so the constructor carries none. -/
inductive BVHTree where
  | leaf : BBox → List Nat → Nat → BVHTree
  | node : BBox → Nat → BVHTree → BVHTree → BVHTree

/-- `BVH.splitNode` (lines 226-296), with fuel (the recursion terminates
because both sides of every split are nonempty; fuel `≥ |idxs|` is always
sufficient, see the conservation proof). -/
def splitNode (tris : List Triangle) : Nat → BBox → List Nat → Nat → BVHTree
  | 0, box, idxs, depth => .leaf box idxs depth
  | fuel + 1, box, idxs, depth =>
    if idxs.length ≤ 1 then .leaf box idxs depth
    else
      match findBestSAHSplit tris idxs box with
      | none => .leaf box idxs depth
      | some best =>
        let leftTriangles := idxs.filter fun i =>
          decide ((centroidOnAxis tris best.1 i).lt best.2.1)
        let rightTriangles := idxs.filter fun i =>
          decide (¬ (centroidOnAxis tris best.1 i).lt best.2.1)
        let parts :=
          if leftTriangles.length = 0 ∨ rightTriangles.length = 0 then
            let mid := idxs.length / 2
            let sortedAll := sortByKey (centroidOnAxis tris best.1) idxs
            (sortedAll.take mid, sortedAll.drop mid)
          else (leftTriangles, rightTriangles)
        .node box depth
          (splitNode tris fuel (calculateBoundingBoxForTriangles tris parts.1) parts.1 (depth + 1))
          (splitNode tris fuel (calculateBoundingBoxForTriangles tris parts.2) parts.2 (depth + 1))

/-- `BVH.buildBVH` + constructor (lines 17-50): root over indices
`0 .. n-1` and the scene box; `none` for an empty triangle list. -/
def bvhBuild (tris : List Triangle) : Option BVHTree :=
  if tris.length = 0 then none
  else some (splitNode tris tris.length (calculateSceneBoundingBox tris)
    (List.range tris.length) 0)

/-- The statistics record of `BVH.collectBVHStats`. -/
structure BVHStats where
  totalNodes : Nat
  leafNodes : Nat
  totalTriangles : Nat
  maxDepth : Nat

/-- `BVH.collectBVHStats` (lines 409-447). -/
def collectBVHStats : BVHTree → Nat → BVHStats
  | .leaf _ idxs _, depth => ⟨1, 1, idxs.length, depth⟩
  | .node _ _ l r, depth =>
    let ls := collectBVHStats l (depth + 1)
    let rs := collectBVHStats r (depth + 1)
    ⟨1 + ls.totalNodes + rs.totalNodes,
     ls.leafNodes + rs.leafNodes,
     ls.totalTriangles + rs.totalTriangles,
     max (max depth ls.maxDepth) rs.maxDepth⟩

/-- Triangle indices of all leaves, in depth-first (left then right) order. -/
def leafIdxs : BVHTree → List Nat
  | .leaf _ idxs _ => idxs
  | .node _ _ l r => leafIdxs l ++ leafIdxs r

/-- Number of nodes of a build-time tree. -/
def numNodes : BVHTree → Nat
  | .leaf _ _ _ => 1
  | .node _ _ l r => 1 + numNodes l + numNodes r

/-- Height of a build-time tree. -/
def treeHeight : BVHTree → Nat
  | .leaf _ _ _ => 1
  | .node _ _ l r => 1 + max (treeHeight l) (treeHeight r)

/-- `BVH.flattenBVH` (lines 514-549) fused with the per-node record written
by `BVH.serializeBVH` (lines 454-512): the TS code pushes the node, recurses
into the children, and mutates the pushed record's child slots afterwards;
here the push is a placeholder and the mutation a `List.set`.  Leaves write
`(triangleStart, triangleCount, 1)`, internal nodes
`(leftIndex, rightIndex, 0)`; `triangleStart` is the index list's length at
visit time and the leaf's indices are appended contiguously.  (The
`|| 0` / `|| -1` fallbacks of `serializeBVH` never fire on trees produced
by the builder: `triangleStart = 0` is preserved by `|| 0` and child
indices are always ≥ 1.)  Returns the updated accumulators and the node's
assigned index. -/
def flattenBVH : BVHTree → List BVHNodeF → List Nat → (List BVHNodeF × List Nat) × Nat
  | .leaf bb idxs _, nodeList, triangleIndexList =>
    let currentIndex := nodeList.length
    ((nodeList ++
        [⟨bb.bmin, bb.bmax, F.ofNat triangleIndexList.length, F.ofNat idxs.length, F.one⟩],
      triangleIndexList ++ idxs), currentIndex)
  | .node bb _ l r, nodeList, triangleIndexList =>
    let currentIndex := nodeList.length
    let placeholder : BVHNodeF := ⟨bb.bmin, bb.bmax, F.zero, F.zero, F.zero⟩
    let resL := flattenBVH l (nodeList ++ [placeholder]) triangleIndexList
    let resR := flattenBVH r resL.1.1 resL.1.2
    ((resR.1.1.set currentIndex
        ⟨bb.bmin, bb.bmax, F.ofNat resL.2, F.ofNat resR.2, F.zero⟩, resR.1.2),
      currentIndex)

/-- `BVH.serializeBVH` at the whole-tree level: empty arrays when there is
no root, else the flattening from empty accumulators. -/
def serializeBVH : Option BVHTree → List BVHNodeF × List Nat
  | none => ([], [])
  | some t => (flattenBVH t [] []).1

/-- Build-time tree with the `depth` bookkeeping erased: topology, boxes and
leaf contents only — the data C4's isomorphism compares. -/
inductive ATree where
  | leaf : BBox → List Nat → ATree
  | node : BBox → ATree → ATree → ATree

/-- Erase the depth field. -/
def stripTree : BVHTree → ATree
  | .leaf bb idxs _ => .leaf bb idxs
  | .node bb _ l r => .node bb (stripTree l) (stripTree r)

/-- Rebuild a tree from the serialized arrays exactly as C4 prescribes:
start at a node index, read the record, delegate on the leaf flag; a leaf
takes the contiguous slice `[triangleStart, triangleStart + triangleCount)`
of the index array, an internal node follows its two child indices.  `none`
on an out-of-range index or exhausted fuel. -/
def rebuildBVH (nodes : List BVHNodeF) (idxs : List Nat) : Nat → Nat → Option ATree
  | 0, _ => none
  | fuel + 1, i =>
    if i < nodes.length then
      let nd := nodes.getD i default
      if nd.is_leaf.eqv F.one then
        some (.leaf ⟨nd.min_bounds, nd.max_bounds⟩
          ((idxs.drop nd.left_or_triangle_start.toU32).take nd.right_or_triangle_count.toU32))
      else
        match rebuildBVH nodes idxs fuel nd.left_or_triangle_start.toU32,
              rebuildBVH nodes idxs fuel nd.right_or_triangle_count.toU32 with
        | some l, some r => some (.node ⟨nd.min_bounds, nd.max_bounds⟩ l r)
        | _, _ => none
    else none

/-- Componentwise `saturate`. -/
def vsaturate (v : V3) : V3 := ⟨v.x.saturate, v.y.saturate, v.z.saturate⟩

/-- Host-side renderer state relevant to frame accumulation
(`src/src/main.ts`): the `frameIndex` counter (`private frameIndex = 0`). -/
structure RendererState where
  frameIndex : Nat

/-- The uniform fields the accumulation claims depend on, as written by
`updateUniformsBuffer`. -/
structure UniformsRec where
  frameIndex : Nat

/-- The initial renderer state. -/
def initialRenderer : RendererState := ⟨0⟩

/-- `WebGPURenderer.render` (lines 675-754): `this.frameIndex++`, then
`updateUniformsBuffer()`, then the compute dispatch and accumulator pass are
encoded and submitted.  Returns the new state and the uniforms the
dispatched frame reads. -/
def renderStep (s : RendererState) : RendererState × UniformsRec :=
  (⟨s.frameIndex + 1⟩, ⟨s.frameIndex + 1⟩)

/-- `WebGPURenderer.resetAccumulation` (lines 769-772): sets the counter to
`0` and rewrites the uniforms buffer; no dispatch happens here. -/
def resetAccumulation (_ : RendererState) : RendererState := ⟨0⟩

/-- Events affecting the frame counter between dispatches.  `setSamplesE`
models `setSamplesPerPixel`, which rewrites uniforms without touching the
counter. -/
inductive HostEv where
  | renderE
  | resetE
  | setSamplesE

/-- Run a sequence of host events, collecting the uniforms of every
dispatched frame in order. -/
def runEvents : List HostEv → RendererState → RendererState × List UniformsRec
  | [], s => (s, [])
  | .renderE :: es, s =>
    let r := renderStep s
    let rest := runEvents es r.1
    (rest.1, r.2 :: rest.2)
  | .resetE :: es, s => runEvents es (resetAccumulation s)
  | .setSamplesE :: es, s => runEvents es s

/-- The accumulator fragment shader `fs_main` (`public/debug.wgsl`
accumulator section, lines 114-146), per pixel: read the stored running
average only when `frameIndex > 0`, blend with weight
`w = 1 / (frameIndex + 1)`, saturate, and write back/display. -/
def accumulator_fs_main (frameIndex : Nat) (storedColor currentFrameColor : V3) : V3 :=
  let stored := if 0 < frameIndex then storedColor else V3.zero
  let weight := F.one.div (F.ofNat (frameIndex + 1))
  vsaturate (vadd (vscale (F.one.sub weight) stored) (vscale weight currentFrameColor))

/-- JS `parseInt` result inside `parseOBJ`: `undefined` for an empty token
(`x ? parseInt(x) : undefined`), `NaN` for a non-numeric one, or a value. -/
inductive JsIdx where
  | undef
  | nan
  | val : Int → JsIdx
deriving DecidableEq

/-- Split a character list at a separator, JS `String.prototype.split` with a
one-character separator: `"a//b" ↦ ["a", "", "b"]`, `"" ↦ [""]`. -/
def splitOnChar (sep : Char) : List Char → List (List Char)
  | [] => [[]]
  | c :: cs =>
    let r := splitOnChar sep cs
    if c = sep then [] :: r
    else (c :: r.headD []) :: r.tail

/-- JS `String.prototype.trim`. -/
def trimCL (cs : List Char) : List Char :=
  ((cs.dropWhile Char.isWhitespace).reverse.dropWhile Char.isWhitespace).reverse

/-- JS `split(/\s+/)` on a trimmed string: whitespace runs separate tokens. -/
def splitWsJS (cs : List Char) : List (List Char) :=
  (splitOnChar ' ' (cs.map fun c => if c.isWhitespace then ' ' else c)).filter
    (fun t => t ≠ [])

/-- Longest digit prefix as a number; the remainder is dropped like JS
`parseInt`/`parseFloat` do. -/
def digitsToNat (ds : List Char) : Nat :=
  ds.foldl (fun a c => a * 10 + (c.toNat - 48)) 0

/-- JS `parseInt(x)` for a token (base 10): `undefined` for `""` (the
`x ? parseInt(x) : undefined` guard), optional sign, longest digit prefix,
`NaN` if there is none. -/
def jsParseInt (x : List Char) : JsIdx :=
  if x = [] then .undef
  else
    let sgn : Int := if x.headD ' ' = '-' then -1 else 1
    let cs1 := if x.headD ' ' = '-' ∨ x.headD ' ' = '+' then x.tail else x
    let ip := (cs1.span Char.isDigit).1
    if ip = [] then .nan else .val (sgn * (digitsToNat ip : Int))

/-- JS `parseFloat` on a (pre-trimmed) token, for plain decimal literals;
non-numeric input is modelled as `0` (the claims never depend on coordinate
values of malformed tokens). -/
def jsParseFloat (x : List Char) : F :=
  let sgn : Int := if x.headD ' ' = '-' then -1 else 1
  let cs1 := if x.headD ' ' = '-' ∨ x.headD ' ' = '+' then x.tail else x
  let ip := (cs1.span Char.isDigit).1
  let rest := (cs1.span Char.isDigit).2
  match rest with
  | '.' :: r2 =>
    let fp := (r2.span Char.isDigit).1
    if ip = [] ∧ fp = [] then F.zero
    else F.frac (sgn * ((digitsToNat ip * 10 ^ fp.length + digitsToNat fp : Nat) : Int))
      (10 ^ fp.length)
  | _ => if ip = [] then F.zero else F.frac (sgn * (digitsToNat ip : Int)) 1

/-- `NaN`-aware `<` of the face-index range checks: comparisons with `NaN`
are false. -/
def jsLt (a : JsIdx) (b : Int) : Bool :=
  match a with
  | .val i => decide (i < b)
  | _ => false

/-- `NaN`-aware `>`. -/
def jsGt (a : JsIdx) (b : Int) : Bool :=
  match a with
  | .val i => decide (b < i)
  | _ => false

/-- A triangle record as `parseOBJ` pushes it: a vertex slot is `none` when
the JS code stored `undefined` there (missing `triangleVertices[k]` or a
`NaN` position lookup). The material constants of the push are fixed
(`color [1,1,1]`, no emission) and omitted. -/
structure OBJTriangle where
  v0 : Option V3
  v1 : Option V3
  v2 : Option V3

/-- One `for (let fv of [...])` iteration of `parseOBJ` (`src/src/common.ts`
lines 70-92): destructure `v/vt/vn`, skip the vertex on `undefined` parts,
warn-and-skip the vertex on an out-of-range index, else push
`tempPositions[vIdx - 1]` (which is `undefined` exactly when `vIdx` is
`NaN`). -/
def faceVertexStep (positions normals : List V3) (acc : List (Option V3))
    (fv : List Char) : List (Option V3) :=
  let toks := (splitOnChar '/' fv).map jsParseInt
  let vIdx := toks.getD 0 .undef
  let nIdx := toks.getD 2 .undef
  if vIdx = .undef ∨ nIdx = .undef then acc
  else if jsLt vIdx 1 || jsGt vIdx positions.length ||
      jsLt nIdx 1 || jsGt nIdx normals.length then acc
  else
    acc ++ [match vIdx with
      | .val i => positions.get? (i - 1).toNat
      | _ => none]

/-- The face branch of `parseOBJ` (lines 62-97): `line.slice(2).trim()
.split(" ")`, fan triangulation `i = 1 .. parts.length - 2`, and one
triangle pushed per fan step regardless of how many vertices survived. -/
def parseFace (positions normals : List V3) (lineRest : List Char) : List OBJTriangle :=
  let parts := splitOnChar ' ' (trimCL lineRest)
  if parts.length < 3 then []
  else
    (List.range' 1 (parts.length - 2)).map fun i =>
      let tv := [parts.getD 0 [], parts.getD i [], parts.getD (i + 1) []].foldl
        (faceVertexStep positions normals) []
      ⟨tv.getD 0 none, tv.getD 1 none, tv.getD 2 none⟩

/-- Parser state: positions, normals, output triangles. -/
structure OBJState where
  positions : List V3
  normals : List V3
  triangles : List OBJTriangle

/-- One line of `parseOBJ` (lines 53-99). -/
def parseOBJLine (st : OBJState) (line0 : List Char) : OBJState :=
  let line := trimCL line0
  match line with
  | 'v' :: ' ' :: _ =>
    let toks := splitWsJS line
    { st with positions := st.positions ++
        [⟨jsParseFloat (toks.getD 1 []), jsParseFloat (toks.getD 2 []),
          jsParseFloat (toks.getD 3 [])⟩] }
  | 'v' :: 'n' :: ' ' :: _ =>
    let toks := splitWsJS line
    { st with normals := st.normals ++
        [⟨jsParseFloat (toks.getD 1 []), jsParseFloat (toks.getD 2 []),
          jsParseFloat (toks.getD 3 [])⟩] }
  | 'f' :: ' ' :: _ =>
    { st with triangles := st.triangles ++
        parseFace st.positions st.normals (line.drop 2) }
  | _ => st

/-- `parseOBJ` (`src/src/common.ts` lines 45-102): the produced triangle
list.  The input is the mesh text as its character list (`String.data`);
`objText.split("\n")` becomes `splitOnChar '\n'`. -/
def parseOBJ (objText : List Char) : List OBJTriangle :=
  ((splitOnChar '\n' objText).foldl parseOBJLine ⟨[], [], []⟩).triangles

/-- Componentwise value equality of vectors. -/
def veqv (a b : V3) : Prop := a.x.eqv b.x ∧ a.y.eqv b.y ∧ a.z.eqv b.z

instance (a b : V3) : Decidable (veqv a b) := by unfold veqv; infer_instance

/-- Value equality of hit records. -/
def hitEqv (a b : HitInfo) : Prop :=
  a.t.eqv b.t ∧ veqv a.color b.color ∧ veqv a.normal b.normal ∧
  veqv a.emission b.emission ∧ a.smoothness.eqv b.smoothness ∧
  a.specularProbability.eqv b.specularProbability

instance (a b : HitInfo) : Decidable (hitEqv a b) := by unfold hitEqv; infer_instance

/-- Whether a build-time node is a leaf. -/
def isLeafT : BVHTree → Prop
  | .leaf _ _ _ => True
  | .node _ _ _ _ => False

instance (t : BVHTree) : Decidable (isLeafT t) := by
  cases t <;> simp [isLeafT] <;> infer_instance

/-- C5's material hypothesis for one vector: all components in `[0, 1]`. -/
def colorOk (c : V3) : Prop :=
  F.zero.le c.x ∧ c.x.le F.one ∧ F.zero.le c.y ∧ c.y.le F.one ∧
  F.zero.le c.z ∧ c.z.le F.one

instance (c : V3) : Decidable (colorOk c) := by unfold colorOk; infer_instance

/-- C5's hypothesis on a sphere: zero emission strength, color in `[0,1]³`. -/
def sphereDark (s : Sphere) : Prop := s.emissionStrength.eqv F.zero ∧ colorOk s.color

instance (s : Sphere) : Decidable (sphereDark s) := by unfold sphereDark; infer_instance

/-- C5's hypothesis on a triangle. -/
def triangleDark (t : Triangle) : Prop := t.emissionStrength.eqv F.zero ∧ colorOk t.color

instance (t : Triangle) : Decidable (triangleDark t) := by unfold triangleDark; infer_instance

/-- C5's hypothesis on the bound arrays. -/
def sceneDark (sc : SceneArrays) : Prop :=
  (∀ s ∈ sc.spheres, sphereDark s) ∧ (∀ t ∈ sc.triangles, triangleDark t)

/-- The functional description of the array segment `flattenBVH` emits for a
subtree whose root lands at node index `base` with triangle indices starting
at `triBase`: the root record followed by the left then the right subtree's
segments. -/
def flatRep : BVHTree → Nat → Nat → List BVHNodeF
  | .leaf bb idxs _, _, triBase =>
    [⟨bb.bmin, bb.bmax, F.ofNat triBase, F.ofNat idxs.length, F.one⟩]
  | .node bb _ l r, base, triBase =>
    ⟨bb.bmin, bb.bmax, F.ofNat (base + 1),
      F.ofNat (base + 1 + numNodes l), F.zero⟩ ::
    (flatRep l (base + 1) triBase ++
      flatRep r (base + 1 + numNodes l) (triBase + (leafIdxs l).length))

/-- Bound-safety of one logged stack operation: reads and writes touch
indices `≤ 62` only (slot 63 is never used), and a push is dropped exactly
at stack size 63. -/
def stackEvOk : StackEv → Prop
  | .readE i => i ≤ 62
  | .writeE i => i ≤ 62
  | .dropE s => s = 63

instance (e : StackEv) : Decidable (stackEvOk e) := by
  cases e <;> simp [stackEvOk] <;> infer_instance

instance (sc : SceneArrays) : Decidable (sceneDark sc) := by
  unfold sceneDark; infer_instance

/-- Mirror A of the concrete run for C5: a large triangle in the plane
`z = 0` with outward normal `+z`, perfectly specular, white, no emission. -/
def mirrorA : Triangle :=
  ⟨⟨F.ofInt (-1), F.ofInt (-1), F.zero⟩, ⟨F.ofInt 20, F.ofInt (-1), F.zero⟩,
   ⟨F.ofInt (-1), F.ofInt 20, F.zero⟩, vone, V3.zero, F.zero, F.one, F.one⟩

/-- Mirror B: a larger triangle in the plane `z = 4` facing mirror A. -/
def mirrorB : Triangle :=
  ⟨⟨F.ofInt (-1), F.ofInt (-1), F.ofInt 4⟩, ⟨F.ofInt (-1), F.ofInt 30, F.ofInt 4⟩,
   ⟨F.ofInt 30, F.ofInt (-1), F.ofInt 4⟩, vone, V3.zero, F.zero, F.one, F.one⟩

/-- The two-mirror scene with its really-serialized BVH, as the shader would
be bound. -/
def cexScene : SceneArrays :=
  ⟨[], [mirrorA, mirrorB],
   (serializeBVH (bvhBuild [mirrorA, mirrorB])).1,
   (serializeBVH (bvhBuild [mirrorA, mirrorB])).2⟩

/-- A unit ray that ping-pongs specularly between the mirrors four times and
then escapes past mirror A's edge. -/
def cexRay : Ray :=
  ⟨⟨F.zero, F.zero, F.ofInt 4⟩, ⟨F.frac 2 3, F.frac 1 3, F.frac (-2) 3⟩⟩

/-- The unit sphere at the origin (no emission). -/
def unitSphere : Sphere :=
  ⟨V3.zero, F.one, vone, F.zero, V3.zero, F.zero, F.zero⟩

/-- A ray starting at the sphere's center, so `t1 = -1 < 0.01 < t2 = 1`. -/
def centerRay : Ray := ⟨V3.zero, ⟨F.zero, F.zero, F.one⟩⟩

def bigMin : V3 := ⟨F.ofInt (-100), F.ofInt (-100), F.ofInt (-100)⟩

def bigMax : V3 := ⟨F.ofInt 100, F.ofInt 100, F.ofInt 100⟩

/-- A triangle in the plane `x = 5` hit by `axisRay`. -/
def chainTri : Triangle :=
  ⟨⟨F.ofInt 5, F.ofInt (-1), F.ofInt (-1)⟩, ⟨F.ofInt 5, F.ofInt (-1), F.ofInt 2⟩,
   ⟨F.ofInt 5, F.ofInt 2, F.ofInt (-1)⟩, vone, V3.zero, F.zero, F.zero, F.zero⟩

/-- A left-spine chain of 63 internal nodes (node `i` has left child `i+1`
and right child the empty leaf 64) ending in leaf 63, which holds the only
triangle; all boxes huge so every AABB test passes.  Traversing it drives
the stack to 63 entries, whereupon the push of node 63 is dropped. -/
def deepNodes : List BVHNodeF :=
  (List.range 63).map (fun i => ⟨bigMin, bigMax, F.ofNat (i + 1), F.ofNat 64, F.zero⟩) ++
  [⟨bigMin, bigMax, F.ofNat 0, F.ofNat 1, F.one⟩,
   ⟨bigMin, bigMax, F.ofNat 0, F.ofNat 0, F.one⟩]

def deepScene : SceneArrays := ⟨[], [chainTri], deepNodes, [0]⟩

/-- A ray along `+x` from the origin (inside every chain box). -/
def axisRay : Ray := ⟨V3.zero, ⟨F.one, F.zero, F.zero⟩⟩

/-- An OBJ mesh whose single face references vertex index 3 while only two
positions were parsed. -/
def objBadFace : List Char := "v 0 0 0\nv 1 0 0\nvn 0 0 1\nf 1//1 2//1 3//1".data

/-- The bound of the amended C5: `400 · sky` (two Russian-roulette divisions
by `p ≥ 0.05` at most can precede the sky-adding miss). -/
def skyBound : V3 := vscale (F.ofNat 400) sky_color

/-- The number of Russian-roulette divisions that can precede a miss when
`rem` loop iterations remain and the current bounce index is `i`
(divisions fire at indices `≥ 3`, and one cannot precede any miss on the
last iteration). -/
def rrDivBound (rem i : Nat) : Nat := (i + rem - 1) - max i 3

theorem fle_refl (x : F) : x.le x := (F.le_iff x x).mpr le_rfl

theorem fle_trans {x y z : F} (h1 : x.le y) (h2 : y.le z) : x.le z :=
  (F.le_iff x z).mpr (le_trans ((F.le_iff x y).mp h1) ((F.le_iff y z).mp h2))

theorem fle_of_not_lt {x y : F} (h : ¬ x.lt y) : y.le x :=
  (F.le_iff y x).mpr (le_of_not_lt (fun hc => h ((F.lt_iff x y).mpr hc)))

theorem fle_of_lt {x y : F} (h : x.lt y) : x.le y :=
  (F.le_iff x y).mpr (le_of_lt ((F.lt_iff x y).mp h))

set_option maxRecDepth 4000000 in
/-- C1: after `resetAccumulation` the next `render` dispatches with
`frameIndex = 1` (the counter is incremented before the uniform write), so
the accumulator reads the previously stored average and blends it at weight
`1/2`; with stored average `(1,1,1)` and new per-frame estimate `(0,0,0)`
the value stored by the first frame after the reset is `(1/2,1/2,1/2)`, not
`saturate(c_new) = (0,0,0)`.  This contradicts the claim (and §4.5's "the
first-frame branch drops the stored value") and defeats the shader's own
"skip the read on the first frame" branch, which is unreachable from the
host: a code bug. -/
theorem C1_reset_first_frame_blends :
    (runEvents [HostEv.resetE, HostEv.renderE] ⟨37⟩).2.map UniformsRec.frameIndex = [1] ∧
    veqv (accumulator_fs_main 1 vone V3.zero) (vscale (F.frac 1 2) vone) ∧
    veqv (vsaturate V3.zero) V3.zero ∧
    ¬ veqv (accumulator_fs_main 1 vone V3.zero) (vsaturate V3.zero) := by
  decide

set_option maxRecDepth 4000000 in
/-- C2: for a ray starting at the center of the unit sphere the quadratic
roots are `t1 = -1 ≤ 0.01 < t2 = 1`, so by the claim the returned hit should
carry `t = t2 = 1`; the code's second-root branch stores `t1` instead
(`return HitInfo(t1, ...)`, `public/common.wgsl` line 155), so the returned
record has `t = -1` — which every caller then treats as a miss.  The spec's
design notes list exactly this as a pre-existing bug: the code, not the
claim, is wrong. -/
theorem C2_sphere_second_root_returns_t1 :
    (sphere_root2 gExact centerRay unitSphere).eqv F.one ∧
    (F.frac 1 100).lt (sphere_root2 gExact centerRay unitSphere) ∧
    (ray_sphere_intersect gExact centerRay unitSphere).t.eqv (F.ofInt (-1)) ∧
    ¬ (ray_sphere_intersect gExact centerRay unitSphere).t.eqv
        (sphere_root2 gExact centerRay unitSphere) := by
  decide

set_option maxRecDepth 4000000 in
/-- C7: the single face of `objBadFace` references vertex index 3 while only
2 positions exist; the claim (and spec §4.1/§7) says the face is skipped and
contributes no triangle, but `parseOBJ` only `continue`s the inner vertex
loop and still pushes one triangle for the face, with the missing vertex
`undefined`: a code bug. -/
theorem C7_invalid_face_still_pushes_triangle :
    (parseOBJ objBadFace).length = 1 ∧
    ((parseOBJ objBadFace).getD 0 ⟨none, none, none⟩).v2.isNone = true := by
  decide

/-- C9: `power_heuristic(a,b) + power_heuristic(b,a) = 1` for all
`a, b ≥ 0` not both zero. -/
theorem C9_power_heuristic_sum (a b : F) (ha : F.zero.le a) (hb : F.zero.le b)
    (hab : ¬ (a.eqv F.zero ∧ b.eqv F.zero)) :
    ((power_heuristic a b).add (power_heuristic b a)).eqv F.one := by
  rw [F.eqv_iff, toQ_one]
  unfold power_heuristic
  rw [toQ_add, toQ_div, toQ_div, toQ_add, toQ_add, toQ_mul, toQ_mul]
  rw [F.le_iff, toQ_zero] at ha hb
  simp only [F.eqv_iff, toQ_zero] at hab
  set x := toQ a with hx
  set y := toQ b with hy
  have hpos : 0 < x * x + y * y := by
    rcases (not_and_or.mp hab) with h | h
    · have : 0 < x := lt_of_le_of_ne ha (Ne.symm h)
      nlinarith
    · have : 0 < y := lt_of_le_of_ne hb (Ne.symm h)
      nlinarith
  have hne : x * x + y * y ≠ 0 := ne_of_gt hpos
  have hcomm : y * y + x * x = x * x + y * y := by ring
  rw [hcomm, div_add_div_same, div_self hne]

/-- Witness for C9 at `a = 1`, `b = 2`. -/
theorem C9_witness :
    F.zero.le (F.ofNat 1) ∧ F.zero.le (F.ofNat 2) ∧
    ¬ ((F.ofNat 1).eqv F.zero ∧ (F.ofNat 2).eqv F.zero) ∧
    ((power_heuristic (F.ofNat 1) (F.ofNat 2)).add
      (power_heuristic (F.ofNat 2) (F.ofNat 1))).eqv F.one :=
  ⟨by decide, by decide, by decide,
   C9_power_heuristic_sum (F.ofNat 1) (F.ofNat 2) (by decide) (by decide) (by decide)⟩

theorem runEvents_frameIndex_pos :
    ∀ (evs : List HostEv) (s : RendererState) (u : UniformsRec),
      u ∈ (runEvents evs s).2 → 1 ≤ u.frameIndex := by
  intro evs
  induction evs with
  | nil => intro s u hu; simp [runEvents] at hu
  | cons e es ih =>
    intro s u hu
    cases e with
    | renderE =>
      simp only [runEvents, renderStep] at hu
      rcases List.mem_cons.mp hu with h | h
      · subst h; exact Nat.succ_le_succ (Nat.zero_le _)
      · exact ih _ u h
    | resetE => exact ih _ u hu
    | setSamplesE => exact ih _ u hu

/-- C10: every dispatched frame's uniforms carry `frameIndex ≥ 1`: `render`
increments the host counter before writing the uniform buffer and
dispatching, on every frame — including the very first one and the first
after `resetAccumulation` — so the shaders' `frameIndex == 0` first-frame
branch is never taken during a dispatched frame. -/
theorem C10_dispatched_frameIndex_positive (evs : List HostEv) (u : UniformsRec)
    (hu : u ∈ (runEvents evs initialRenderer).2) : 1 ≤ u.frameIndex :=
  runEvents_frameIndex_pos evs initialRenderer u hu

/-- Witness for C10: the trace "reset, then render" dispatches exactly one
frame, with `frameIndex = 1`. -/
theorem C10_witness :
    (⟨1⟩ : UniformsRec) ∈ (runEvents [HostEv.resetE, HostEv.renderE] initialRenderer).2 ∧
    1 ≤ (⟨1⟩ : UniformsRec).frameIndex :=
  ⟨by simp [runEvents, renderStep, resetAccumulation],
   C10_dispatched_frameIndex_positive [HostEv.resetE, HostEv.renderE] ⟨1⟩
     (by simp [runEvents, renderStep, resetAccumulation])⟩

theorem insertByKey_perm {α : Type} (key : α → F) (x : α) (l : List α) :
    (insertByKey key x l).Perm (x :: l) := by
  induction l with
  | nil => simp [insertByKey]
  | cons y ys ih =>
    unfold insertByKey
    by_cases h : (key y).lt (key x)
    · rw [if_pos h]
      exact (ih.cons y).trans (List.Perm.swap x y ys)
    · rw [if_neg h]

theorem sortByKey_perm {α : Type} (key : α → F) (l : List α) :
    (sortByKey key l).Perm l := by
  induction l with
  | nil => simp [sortByKey]
  | cons x xs ih =>
    unfold sortByKey
    exact (insertByKey_perm key x (sortByKey key xs)).trans (ih.cons x)

theorem partition_filters_perm (p : Nat → Prop) [DecidablePred p] (l : List Nat) :
    (l.filter (fun i => decide (p i)) ++ l.filter (fun i => decide (¬ p i))).Perm l := by
  have h := List.filter_append_perm (fun i => decide (p i)) l
  simpa [decide_not] using h

theorem splitNode_leafIdxs_perm (tris : List Triangle) :
    ∀ (fuel : Nat) (box : BBox) (idxs : List Nat) (depth : Nat),
      idxs.length ≤ fuel →
      (leafIdxs (splitNode tris fuel box idxs depth)).Perm idxs := by
  intro fuel
  induction fuel with
  | zero =>
    intro box idxs depth hlen
    have : idxs = [] := List.length_eq_zero.mp (Nat.le_zero.mp hlen)
    subst this
    simp [splitNode, leafIdxs]
  | succ fuel ih =>
    intro box idxs depth hlen
    by_cases h1 : idxs.length ≤ 1
    · simp [splitNode, if_pos h1, leafIdxs]
    · rcases hsplit : findBestSAHSplit tris idxs box with _ | best
      · simp [splitNode, if_neg h1, hsplit, leafIdxs]
      · have hn2 : 2 ≤ idxs.length := by omega
        by_cases hdeg :
            (idxs.filter fun i =>
              decide ((centroidOnAxis tris best.1 i).lt best.2.1)).length = 0 ∨
            (idxs.filter fun i =>
              decide (¬ (centroidOnAxis tris best.1 i).lt best.2.1)).length = 0
        · -- degenerate partition: median split of the sorted list
          simp only [splitNode, if_neg h1, hsplit, if_pos hdeg, leafIdxs]
          set sorted := sortByKey (centroidOnAxis tris best.1) idxs with hsorted
          have hslen : sorted.length = idxs.length :=
            (sortByKey_perm (centroidOnAxis tris best.1) idxs).length_eq
          have htake : (sorted.take (idxs.length / 2)).length ≤ fuel := by
            rw [List.length_take]
            omega
          have hdrop : (sorted.drop (idxs.length / 2)).length ≤ fuel := by
            rw [List.length_drop]
            omega
          have hperm := List.Perm.append
            (ih (calculateBoundingBoxForTriangles tris (sorted.take (idxs.length / 2)))
              (sorted.take (idxs.length / 2)) (depth + 1) htake)
            (ih (calculateBoundingBoxForTriangles tris (sorted.drop (idxs.length / 2)))
              (sorted.drop (idxs.length / 2)) (depth + 1) hdrop)
          rw [List.take_append_drop] at hperm
          exact hperm.trans (sortByKey_perm (centroidOnAxis tris best.1) idxs)
        · -- proper partition
          simp only [splitNode, if_neg h1, hsplit, if_neg hdeg, leafIdxs]
          have hsum :
              (idxs.filter fun i =>
                decide ((centroidOnAxis tris best.1 i).lt best.2.1)).length +
              (idxs.filter fun i =>
                decide (¬ (centroidOnAxis tris best.1 i).lt best.2.1)).length =
              idxs.length :=
            (partition_filters_perm (fun i => (centroidOnAxis tris best.1 i).lt best.2.1)
              idxs).length_eq ▸ (List.length_append _ _).symm
          push_neg at hdeg
          have hfl : (idxs.filter fun i =>
              decide ((centroidOnAxis tris best.1 i).lt best.2.1)).length ≤ fuel := by omega
          have hfr : (idxs.filter fun i =>
              decide (¬ (centroidOnAxis tris best.1 i).lt best.2.1)).length ≤ fuel := by omega
          exact (List.Perm.append
            (ih (calculateBoundingBoxForTriangles tris (idxs.filter fun i =>
                decide ((centroidOnAxis tris best.1 i).lt best.2.1)))
              (idxs.filter fun i => decide ((centroidOnAxis tris best.1 i).lt best.2.1))
              (depth + 1) hfl)
            (ih (calculateBoundingBoxForTriangles tris (idxs.filter fun i =>
                decide (¬ (centroidOnAxis tris best.1 i).lt best.2.1)))
              (idxs.filter fun i => decide (¬ (centroidOnAxis tris best.1 i).lt best.2.1))
              (depth + 1) hfr)).trans
            (partition_filters_perm
              (fun i => (centroidOnAxis tris best.1 i).lt best.2.1) idxs)

theorem collectBVHStats_totalTriangles (t : BVHTree) :
    ∀ depth, (collectBVHStats t depth).totalTriangles = (leafIdxs t).length := by
  induction t with
  | leaf bb idxs d => intro depth; simp [collectBVHStats, leafIdxs]
  | node bb d l r ihl ihr =>
    intro depth
    simp [collectBVHStats, leafIdxs, ihl, ihr]

/-- C3: for a nonempty triangle list the constructor builds a tree whose
leaves' triangle indices are, as a multiset, exactly `{0, …, N−1}` with each
index once (the permutation and `Nodup` together), including through the
degenerate-partition median fallback; consequently the exposed
`totalTriangles` statistic equals `N`. -/
theorem C3_bvh_conservation (tris : List Triangle) (h : tris ≠ []) :
    ∃ t, bvhBuild tris = some t ∧
      (leafIdxs t).Perm (List.range tris.length) ∧
      (leafIdxs t).Nodup ∧
      (collectBVHStats t 0).totalTriangles = tris.length := by
  have hn : ¬ tris.length = 0 := by
    intro h0
    exact h (List.length_eq_zero.mp h0)
  refine ⟨splitNode tris tris.length (calculateSceneBoundingBox tris)
    (List.range tris.length) 0, ?_, ?_, ?_, ?_⟩
  · unfold bvhBuild
    rw [if_neg hn]
  · have := splitNode_leafIdxs_perm tris tris.length
      (calculateSceneBoundingBox tris) (List.range tris.length) 0
      (by simp)
    simpa using this
  · have hperm := splitNode_leafIdxs_perm tris tris.length
      (calculateSceneBoundingBox tris) (List.range tris.length) 0 (by simp)
    exact hperm.nodup_iff.mpr (by simpa using List.nodup_range tris.length)
  · rw [collectBVHStats_totalTriangles]
    have hperm := splitNode_leafIdxs_perm tris tris.length
      (calculateSceneBoundingBox tris) (List.range tris.length) 0 (by simp)
    rw [hperm.length_eq]
    simp

/-- Witness for C3 at the one-triangle list `[mirrorA]`. -/
theorem C3_witness :
    ([mirrorA] : List Triangle) ≠ [] ∧
    ∃ t, bvhBuild [mirrorA] = some t ∧
      (leafIdxs t).Perm (List.range ([mirrorA] : List Triangle).length) ∧
      (leafIdxs t).Nodup ∧
      (collectBVHStats t 0).totalTriangles = ([mirrorA] : List Triangle).length :=
  ⟨List.cons_ne_nil _ _, C3_bvh_conservation [mirrorA] (List.cons_ne_nil _ _)⟩

theorem flt_of_not_le {x y : F} (h : ¬ x.le y) : y.lt x :=
  (F.lt_iff y x).mpr (lt_of_not_le (fun hc => h ((F.le_iff x y).mpr hc)))

theorem sahBest_fold_some (SA : F) (hSA : ¬ SA.eqv F.zero) :
    ∀ (cands : List SAHCand) (b : SAHCand),
      ∃ r, cands.foldl
          (fun best c =>
            if ¬ SA.eqv F.zero ∧ costBetter best c = true then some c else best)
          (some b) = some r ∧
        (r = b ∨ r ∈ cands) ∧ r.2.2.le b.2.2 ∧ ∀ c ∈ cands, r.2.2.le c.2.2 := by
  intro cands
  induction cands with
  | nil =>
    intro b
    exact ⟨b, rfl, Or.inl rfl, fle_refl _, by simp⟩
  | cons c cs ih =>
    intro b
    by_cases hbc : costBetter (some b) c = true
    · have hstep :
          (if ¬ SA.eqv F.zero ∧ costBetter (some b) c = true then some c else some b) =
            some c := if_pos ⟨hSA, hbc⟩
      rcases ih c with ⟨r, hfold, hmem, hrb, hall⟩
      refine ⟨r, ?_, ?_, ?_, ?_⟩
      · simpa [hstep] using hfold
      · rcases hmem with h | h
        · exact Or.inr (h ▸ List.mem_cons_self c cs)
        · exact Or.inr (List.mem_cons_of_mem c h)
      · have hcb : c.2.2.le b.2.2 := fle_of_lt (of_decide_eq_true hbc)
        exact fle_trans hrb hcb
      · intro x hx
        rcases List.mem_cons.mp hx with h | h
        · exact h ▸ hrb
        · exact hall x h
    · have hstep :
          (if ¬ SA.eqv F.zero ∧ costBetter (some b) c = true then some c else some b) =
            some b := if_neg (fun hc => hbc hc.2)
      rcases ih b with ⟨r, hfold, hmem, hrb, hall⟩
      refine ⟨r, ?_, ?_, hrb, ?_⟩
      · simpa [hstep] using hfold
      · rcases hmem with h | h
        · exact Or.inl h
        · exact Or.inr (List.mem_cons_of_mem c h)
      · intro x hx
        rcases List.mem_cons.mp hx with h | h
        · have hbc' : b.2.2.le c.2.2 := by
            have := fle_of_not_lt (x := c.2.2) (y := b.2.2) ?_
            · exact this
            · intro hlt
              exact hbc (decide_eq_true hlt)
          exact h ▸ fle_trans hrb hbc'
        · exact hall x h

theorem sahBest_spec (SA : F) (hSA : ¬ SA.eqv F.zero) (cands : List SAHCand)
    (hne : cands ≠ []) :
    ∃ r, sahBest SA cands = some r ∧ r ∈ cands ∧ ∀ c ∈ cands, r.2.2.le c.2.2 := by
  rcases cands with _ | ⟨c, cs⟩
  · exact absurd rfl hne
  · unfold sahBest
    have hstep :
        (if ¬ SA.eqv F.zero ∧ costBetter none c = true then some c else none) = some c := by
      rw [if_pos ⟨hSA, rfl⟩]
    rcases sahBest_fold_some SA hSA cs c with ⟨r, hfold, hmem, hrc, hall⟩
    refine ⟨r, ?_, ?_, ?_⟩
    · simpa [hstep] using hfold
    · rcases hmem with h | h
      · exact h ▸ List.mem_cons_self c cs
      · exact List.mem_cons_of_mem c h
    · intro x hx
      rcases List.mem_cons.mp hx with h | h
      · exact h ▸ hrc
      · exact hall x h

theorem sahCandidatesForAxis_length (tris : List Triangle) (idxs : List Nat)
    (SA : F) (axis : Nat) :
    (sahCandidatesForAxis tris idxs SA axis).length = idxs.length - 1 := by
  simp [sahCandidatesForAxis]

theorem sahAllCandidates_ne_nil (tris : List Triangle) (idxs : List Nat) (SA : F)
    (h2 : 2 ≤ idxs.length) : sahAllCandidates tris idxs SA ≠ [] := by
  intro h0
  have := congrArg List.length h0
  simp only [sahAllCandidates, List.length_append, sahCandidatesForAxis_length,
    List.length_nil] at this
  omega

/-- C6: during construction (any successor fuel), a node over `|T| ≥ 2`
triangles with a box of nonzero surface area becomes a leaf exactly when
every SAH candidate (all three axes, all positions `i ∈ 1..|T|-1` at
midpoints of adjacent sorted centroids, cost
`C = C_T + C_I(SA_L/SA·i + SA_R/SA·(|T|−i))`, `C_T = C_I = 1`)
has cost at least the leaf cost `C_I·|T|`; otherwise the split chosen by
`findBestSAHSplit` is a candidate of minimal cost (below `C_I·|T|`). -/
theorem C6_sah_leaf_decision (tris : List Triangle) (idxs : List Nat) (box : BBox)
    (depth fuel : Nat) (h2 : 2 ≤ idxs.length)
    (hSA : ¬ (calculateSurfaceArea box).eqv F.zero) :
    (isLeafT (splitNode tris (fuel + 1) box idxs depth) ↔
      ∀ c ∈ sahAllCandidates tris idxs (calculateSurfaceArea box),
        (F.one.mul (F.ofNat idxs.length)).le c.2.2) ∧
    ∀ best, findBestSAHSplit tris idxs box = some best →
      best ∈ sahAllCandidates tris idxs (calculateSurfaceArea box) ∧
      best.2.2.lt (F.one.mul (F.ofNat idxs.length)) ∧
      ∀ c ∈ sahAllCandidates tris idxs (calculateSurfaceArea box), best.2.2.le c.2.2 := by
  have h1 : ¬ idxs.length ≤ 1 := by omega
  rcases sahBest_spec (calculateSurfaceArea box) hSA
      (sahAllCandidates tris idxs (calculateSurfaceArea box))
      (sahAllCandidates_ne_nil tris idxs (calculateSurfaceArea box) h2) with
    ⟨r, hbest, hrmem, hrmin⟩
  have hfind : findBestSAHSplit tris idxs box =
      (if (F.one.mul (F.ofNat idxs.length)).le r.2.2 then none else some r) := by
    simp only [findBestSAHSplit]
    rw [hbest]
  constructor
  · constructor
    · intro hleaf c hc
      by_cases hle : (F.one.mul (F.ofNat idxs.length)).le r.2.2
      · exact fle_trans hle (hrmin c hc)
      · exfalso
        rw [if_neg hle] at hfind
        simp only [splitNode, if_neg h1, hfind] at hleaf
        exact hleaf
    · intro hall
      have hle : (F.one.mul (F.ofNat idxs.length)).le r.2.2 := hall r hrmem
      rw [if_pos hle] at hfind
      simp only [splitNode, if_neg h1, hfind]
      trivial
  · intro best hbest'
    by_cases hle : (F.one.mul (F.ofNat idxs.length)).le r.2.2
    · rw [if_pos hle] at hfind
      rw [hfind] at hbest'
      exact absurd hbest' (by simp)
    · rw [if_neg hle] at hfind
      rw [hfind] at hbest'
      have hbr : best = r := by
        injection hbest' with h
        exact h.symm
      subst hbr
      exact ⟨hrmem, flt_of_not_le hle, hrmin⟩

/-- Witness for C6 at the two-mirror scene: two triangles, nonzero node
surface area. -/
theorem C6_witness :
    2 ≤ ([0, 1] : List Nat).length ∧
    ¬ (calculateSurfaceArea (calculateSceneBoundingBox [mirrorA, mirrorB])).eqv F.zero ∧
    ((isLeafT (splitNode [mirrorA, mirrorB] 1
        (calculateSceneBoundingBox [mirrorA, mirrorB]) [0, 1] 0) ↔
      ∀ c ∈ sahAllCandidates [mirrorA, mirrorB] [0, 1]
          (calculateSurfaceArea (calculateSceneBoundingBox [mirrorA, mirrorB])),
        (F.one.mul (F.ofNat ([0, 1] : List Nat).length)).le c.2.2) ∧
    ∀ best, findBestSAHSplit [mirrorA, mirrorB] [0, 1]
        (calculateSceneBoundingBox [mirrorA, mirrorB]) = some best →
      best ∈ sahAllCandidates [mirrorA, mirrorB] [0, 1]
          (calculateSurfaceArea (calculateSceneBoundingBox [mirrorA, mirrorB])) ∧
      best.2.2.lt (F.one.mul (F.ofNat ([0, 1] : List Nat).length)) ∧
      ∀ c ∈ sahAllCandidates [mirrorA, mirrorB] [0, 1]
          (calculateSurfaceArea (calculateSceneBoundingBox [mirrorA, mirrorB])),
        best.2.2.le c.2.2) :=
  ⟨by decide, by decide,
   C6_sah_leaf_decision [mirrorA, mirrorB] [0, 1]
     (calculateSceneBoundingBox [mirrorA, mirrorB]) 0 0 (by decide) (by decide)⟩

theorem flatRep_length (t : BVHTree) :
    ∀ base triBase, (flatRep t base triBase).length = numNodes t := by
  induction t with
  | leaf bb idxs d => intro base triBase; simp [flatRep, numNodes]
  | node bb d l r ihl ihr =>
    intro base triBase
    simp [flatRep, numNodes, ihl, ihr]
    omega

theorem numNodes_pos (t : BVHTree) : 1 ≤ numNodes t := by
  cases t with
  | leaf bb idxs d => simp [numNodes]
  | node bb d l r => simp [numNodes]; omega

theorem set_append_cons {α : Type} (a : List α) (v ph : α) (rest : List α) :
    (a ++ ph :: rest).set a.length v = a ++ v :: rest := by
  induction a with
  | nil => simp
  | cons x xs ih => simp [List.set, ih]

theorem getD_at_append {α : Type} [Inhabited α] (pre : List α) (x : α) (rest : List α) :
    (pre ++ x :: rest).getD pre.length default = x := by
  induction pre with
  | nil => simp
  | cons y ys ih => simpa using ih

theorem toU32_ofNat (m : Nat) : (F.ofNat m).toU32 = m := by
  simp [F.ofNat, F.toU32]

theorem flattenBVH_spec (t : BVHTree) :
    ∀ (nl : List BVHNodeF) (il : List Nat),
      flattenBVH t nl il =
        ((nl ++ flatRep t nl.length il.length, il ++ leafIdxs t), nl.length) := by
  induction t with
  | leaf bb idxs d =>
    intro nl il
    simp [flattenBVH, flatRep, leafIdxs]
  | node bb d l r ihl ihr =>
    intro nl il
    simp only [flattenBVH]
    rw [ihl, ihr]
    simp only [List.length_append, List.length_cons, List.length_nil, Nat.add_zero,
      Nat.zero_add, flatRep_length, List.singleton_append, List.cons_append,
      List.append_assoc]
    rw [set_append_cons]
    simp only [flatRep, leafIdxs, List.append_assoc, List.nil_append]
    have e : nl.length + (numNodes l + 1) = nl.length + 1 + numNodes l := by omega
    rw [e]

theorem rebuild_flatRep (t : BVHTree) :
    ∀ (pre suf : List BVHNodeF) (ipre isuf : List Nat) (fuel : Nat),
      treeHeight t ≤ fuel →
      rebuildBVH (pre ++ flatRep t pre.length ipre.length ++ suf)
        (ipre ++ leafIdxs t ++ isuf) fuel pre.length = some (stripTree t) := by
  induction t with
  | leaf bb idxs d =>
    intro pre suf ipre isuf fuel hfuel
    have hf1 : 1 ≤ fuel := le_trans (by simp [treeHeight]) hfuel
    rcases fuel with _ | fuel
    · omega
    · simp only [flatRep, rebuildBVH]
      have hlt : pre.length <
          (pre ++ [(⟨bb.bmin, bb.bmax, F.ofNat ipre.length,
            F.ofNat idxs.length, F.one⟩ : BVHNodeF)] ++ suf).length := by
        simp
      rw [if_pos (by simp only [List.length_append, List.length_cons, List.singleton_append] at hlt ⊢; omega)]
      have hget : (pre ++ [(⟨bb.bmin, bb.bmax, F.ofNat ipre.length,
          F.ofNat idxs.length, F.one⟩ : BVHNodeF)] ++ suf).getD pre.length default =
          ⟨bb.bmin, bb.bmax, F.ofNat ipre.length, F.ofNat idxs.length, F.one⟩ := by
        rw [List.append_assoc, List.singleton_append]
        exact getD_at_append pre _ suf
      rw [hget]
      rw [if_pos (show (F.one).eqv F.one by decide)]
      simp only [toU32_ofNat, leafIdxs, stripTree]
      rw [List.append_assoc, List.drop_left, List.take_left]
  | node bb d l r ihl ihr =>
    intro pre suf ipre isuf fuel hfuel
    rcases fuel with _ | fuel
    · exfalso
      have := treeHeight l
      simp [treeHeight] at hfuel
    · have hhl : treeHeight l ≤ fuel := by
        simp only [treeHeight] at hfuel
        omega
      have hhr : treeHeight r ≤ fuel := by
        simp only [treeHeight] at hfuel
        omega
      simp only [flatRep, rebuildBVH]
      have hshape :
          pre ++ ((⟨bb.bmin, bb.bmax, F.ofNat (pre.length + 1),
              F.ofNat (pre.length + 1 + numNodes l), F.zero⟩ : BVHNodeF) ::
            (flatRep l (pre.length + 1) ipre.length ++
             flatRep r (pre.length + 1 + numNodes l)
               (ipre.length + (leafIdxs l).length))) ++ suf =
          pre ++ (⟨bb.bmin, bb.bmax, F.ofNat (pre.length + 1),
              F.ofNat (pre.length + 1 + numNodes l), F.zero⟩ : BVHNodeF) ::
            (flatRep l (pre.length + 1) ipre.length ++
             (flatRep r (pre.length + 1 + numNodes l)
               (ipre.length + (leafIdxs l).length) ++ suf)) := by
        simp [List.append_assoc]
      rw [hshape]
      have hlt : pre.length < (pre ++ (⟨bb.bmin, bb.bmax, F.ofNat (pre.length + 1),
          F.ofNat (pre.length + 1 + numNodes l), F.zero⟩ : BVHNodeF) ::
            (flatRep l (pre.length + 1) ipre.length ++
             (flatRep r (pre.length + 1 + numNodes l)
               (ipre.length + (leafIdxs l).length) ++ suf))).length := by
        simp
      rw [if_pos hlt]
      rw [getD_at_append]
      rw [if_neg (show ¬ (F.zero).eqv F.one by decide)]
      simp only [toU32_ofNat]
      have hleft : rebuildBVH (pre ++ (⟨bb.bmin, bb.bmax, F.ofNat (pre.length + 1),
          F.ofNat (pre.length + 1 + numNodes l), F.zero⟩ : BVHNodeF) ::
            (flatRep l (pre.length + 1) ipre.length ++
             (flatRep r (pre.length + 1 + numNodes l)
               (ipre.length + (leafIdxs l).length) ++ suf)))
          (ipre ++ leafIdxs (BVHTree.node bb d l r) ++ isuf) fuel (pre.length + 1) =
          some (stripTree l) := by
        have := ihl (pre ++ [⟨bb.bmin, bb.bmax, F.ofNat (pre.length + 1),
            F.ofNat (pre.length + 1 + numNodes l), F.zero⟩])
          (flatRep r (pre.length + 1 + numNodes l)
            (ipre.length + (leafIdxs l).length) ++ suf)
          ipre (leafIdxs r ++ isuf) fuel hhl
        simp only [List.length_append, List.length_cons, List.length_nil,
          List.append_assoc, List.singleton_append, List.cons_append] at this ⊢
        simp only [leafIdxs, List.append_assoc]
        exact this
      have hright : rebuildBVH (pre ++ (⟨bb.bmin, bb.bmax, F.ofNat (pre.length + 1),
          F.ofNat (pre.length + 1 + numNodes l), F.zero⟩ : BVHNodeF) ::
            (flatRep l (pre.length + 1) ipre.length ++
             (flatRep r (pre.length + 1 + numNodes l)
               (ipre.length + (leafIdxs l).length) ++ suf)))
          (ipre ++ leafIdxs (BVHTree.node bb d l r) ++ isuf) fuel
          (pre.length + 1 + numNodes l) =
          some (stripTree r) := by
        have := ihr (pre ++ (⟨bb.bmin, bb.bmax, F.ofNat (pre.length + 1),
            F.ofNat (pre.length + 1 + numNodes l), F.zero⟩ : BVHNodeF) ::
              flatRep l (pre.length + 1) ipre.length)
          suf (ipre ++ leafIdxs l) isuf fuel hhr
        simp only [List.length_append, List.length_cons, List.length_nil,
          flatRep_length, List.append_assoc, List.cons_append] at this ⊢
        simp only [leafIdxs, List.append_assoc]
        have harith : pre.length + (numNodes l + 1) = pre.length + 1 + numNodes l := by omega
        rw [harith] at this
        exact this
      rw [hleft, hright]
      simp [stripTree]

/-- C4: for every build-time tree (in particular every constructed BVH),
rebuilding from the serialized `(nodes, triangleIndices)` arrays — starting
at node index 0, following the child-index slots of internal nodes and
taking the contiguous `[triangleStart, triangleStart + triangleCount)` slice
for leaves — returns exactly the original tree up to the erased `depth`
bookkeeping: same topology, same boxes, same leaf triangle contents, root at
index 0. -/
theorem C4_flatten_roundtrip (t : BVHTree) :
    rebuildBVH (serializeBVH (some t)).1 (serializeBVH (some t)).2
      (treeHeight t) 0 = some (stripTree t) := by
  have hser : serializeBVH (some t) = (flatRep t 0 0, leafIdxs t) := by
    simp only [serializeBVH]
    rw [flattenBVH_spec]
    simp
  rw [hser]
  have := rebuild_flatRep t [] [] [] [] (treeHeight t) le_rfl
  simpa using this

theorem bvhLoopEv_ok (g : GpuMath) (sc : SceneArrays) (ray : Ray) :
    ∀ (fuel : Nat) (stack : List Nat) (ptr : Nat) (closest : HitInfo)
      (evs : List StackEv),
      ptr ≤ 63 → (∀ e ∈ evs, stackEvOk e) →
      (bvhLoopEv g sc ray fuel stack ptr closest evs).1 =
        bvhLoop g sc ray fuel stack ptr closest ∧
      ∀ e ∈ (bvhLoopEv g sc ray fuel stack ptr closest evs).2, stackEvOk e := by
  intro fuel
  induction fuel with
  | zero =>
    intro stack ptr closest evs hptr hevs
    exact ⟨rfl, hevs⟩
  | succ fuel ih =>
    intro stack ptr closest evs hptr hevs
    by_cases hp0 : ptr = 0
    · simp only [bvhLoopEv, bvhLoop, if_pos hp0]
      exact ⟨trivial, hevs⟩
    · have hple : ptr - 1 ≤ 62 := by omega
      have hevs1 : ∀ e ∈ evs ++ [StackEv.readE (ptr - 1)], stackEvOk e := by
        intro e he
        rcases List.mem_append.mp he with h | h
        · exact hevs e h
        · simp only [List.mem_singleton] at h
          subst h
          exact hple
      by_cases hni : sc.bvh_nodes.length ≤ stack.getD (ptr - 1) 0
      · simp only [bvhLoopEv, bvhLoop, if_neg hp0, if_pos hni]
        exact ih stack (ptr - 1) closest _ (by omega) hevs1
      · by_cases haabb : ¬ ray_aabb_intersect ray
            (wgslGet sc.bvh_nodes (stack.getD (ptr - 1) 0)).min_bounds
            (wgslGet sc.bvh_nodes (stack.getD (ptr - 1) 0)).max_bounds
        · simp only [bvhLoopEv, bvhLoop, if_neg hp0, if_neg hni, if_pos haabb]
          exact ih stack (ptr - 1) closest _ (by omega) hevs1
        · by_cases hleaf : (F.frac 1 2).lt (wgslGet sc.bvh_nodes (stack.getD (ptr - 1) 0)).is_leaf
          · simp only [bvhLoopEv, bvhLoop, if_neg hp0, if_neg hni, if_neg haabb, if_pos hleaf]
            exact ih stack (ptr - 1) _ _ (by omega) hevs1
          · simp only [bvhLoopEv, bvhLoop, if_neg hp0, if_neg hni, if_neg haabb, if_neg hleaf]
            have hp1 : ptr - 1 < 63 := by omega
            simp only [if_pos hp1]
            by_cases hp2 : ptr - 1 + 1 < 63
            · simp only [if_pos hp2]
              apply ih _ _ _ _ (by omega)
              intro e he
              rcases List.mem_append.mp he with h | h
              · rcases List.mem_append.mp h with h' | h'
                · exact hevs1 e h'
                · simp only [List.mem_singleton] at h'
                  subst h'
                  exact hple
              · simp only [List.mem_singleton] at h
                subst h
                show ptr - 1 + 1 ≤ 62
                omega
            · simp only [if_neg hp2]
              apply ih _ _ _ _ (by omega)
              intro e he
              rcases List.mem_append.mp he with h | h
              · rcases List.mem_append.mp h with h' | h'
                · exact hevs1 e h'
                · simp only [List.mem_singleton] at h'
                  subst h'
                  exact hple
              · simp only [List.mem_singleton] at h
                subst h
                show ptr - 1 + 1 = 63
                omega

/-- C8 (amended): the traversal's 64-slot stack is seeded with the root and
every logged stack operation is safe: reads and writes only touch indices
`≤ 62` (slot 63 is never used), and a child push is suppressed exactly when
the stack already holds 63 indices — i.e. when the push would make the size
64, one below the claimed threshold of "exceeding 64"; the instrumented
traversal computes the same hit as the plain one. -/
theorem C8_stack_safety (g : GpuMath) (sc : SceneArrays) (ray : Ray) (fuel : Nat) :
    (ray_bvh_trianglesEv g sc ray fuel).1 = ray_bvh_triangles g sc ray fuel ∧
    ∀ e ∈ (ray_bvh_trianglesEv g sc ray fuel).2, stackEvOk e := by
  unfold ray_bvh_trianglesEv ray_bvh_triangles
  by_cases h0 : sc.bvh_nodes.length = 0
  · simp only [if_pos h0]
    exact ⟨trivial, by simp⟩
  · simp only [if_neg h0]
    apply bvhLoopEv_ok g sc ray fuel _ 1 noHit [StackEv.writeE 0] (by omega)
    intro e he
    simp only [List.mem_singleton] at he
    subst he
    show (0 : Nat) ≤ 62
    omega

set_option maxRecDepth 4000000 in
/-- C8 (counterexample): on the 63-deep left-spine node array, the traversal
drops a push while the stack holds only 63 indices (the push would have made
the size 64, which does not exceed the capacity of 64 — refuting
"suppressed exactly when it would exceed the stack's capacity of 64"), and
the drop is observable: the code's traversal misses the triangle that the
claimed capacity-64 guard would hit. -/
theorem C8_counterexample :
    StackEv.dropE 63 ∈ (ray_bvh_trianglesEv gExact deepScene axisRay 400).2 ∧
    (ray_bvh_triangles gExact deepScene axisRay 400).t.eqv (F.ofInt (-1)) ∧
    (ray_bvh_trianglesCap64 gExact deepScene axisRay 400).t.eqv (F.ofInt 5) ∧
    ¬ hitEqv (ray_bvh_triangles gExact deepScene axisRay 400)
        (ray_bvh_trianglesCap64 gExact deepScene axisRay 400) := by
  decide

/-- What a dark scene's intersections guarantee about any returned hit
record: zero emission and color components within `[0, 1]` (rationally). -/
def hitDark (h : HitInfo) : Prop :=
  toQ h.emission.x = 0 ∧ toQ h.emission.y = 0 ∧ toQ h.emission.z = 0 ∧
  0 ≤ toQ h.color.x ∧ toQ h.color.x ≤ 1 ∧
  0 ≤ toQ h.color.y ∧ toQ h.color.y ≤ 1 ∧
  0 ≤ toQ h.color.z ∧ toQ h.color.z ≤ 1

/-- The zero light sample returned by `sample_light_triangles` when there is
no emissive triangle. -/
def zeroLightSample : LightSample := ⟨V3.zero, V3.zero, F.zero, F.zero⟩

set_option maxRecDepth 4000000 in
/-- C5 (counterexample): in the two-mirror scene — all materials with
`emissionStrength = 0` and `color = (1,1,1) ≤ 1` — the realized path with
RNG state 0 ping-pongs specularly four times, survives the bounce-3 Russian
roulette with `p = 0.95`, escapes to the sky, and returns
`L = (8/19, 8/19, 8/19)`, which exceeds `sky = (0.4, 0.4, 0.4)`
componentwise: the Russian-roulette division `β ← β/p` pushes the realized
`L` above the claimed bound. -/
theorem C5_counterexample :
    sceneDark cexScene ∧
    veqv (ray_trace gExact cexScene cexRay 6 0 100).1
      ⟨F.frac 8 19, F.frac 8 19, F.frac 8 19⟩ ∧
    ¬ vle (ray_trace gExact cexScene cexRay 6 0 100).1 sky_color := by
  refine ⟨?_, ?_, ?_⟩ <;> decide

theorem hitDark_noHit : hitDark noHit := by
  simp only [hitDark, noHit, V3.zero, toQ_zero]
  norm_num

theorem hitDark_record (t nsm sp : F) (nrm : V3) {s0 : F} {c ec : V3}
    (he : toQ s0 = 0) (hc : colorOk c) :
    hitDark ⟨t, c, nrm, vscale s0 ec, nsm, sp⟩ := by
  obtain ⟨h1, h2, h3, h4, h5, h6⟩ := hc
  rw [F.le_iff, toQ_zero] at h1 h3 h5
  rw [F.le_iff, toQ_one] at h2 h4 h6
  exact ⟨by simp [vscale, toQ_mul, he], by simp [vscale, toQ_mul, he],
    by simp [vscale, toQ_mul, he], h1, h2, h3, h4, h5, h6⟩

theorem hitDark_sphere (g : GpuMath) (ray : Ray) {s : Sphere}
    (hs : sphereDark s) : hitDark (ray_sphere_intersect g ray s) := by
  have he : toQ s.emissionStrength = 0 := by
    have h0 := hs.1
    rwa [F.eqv_iff, toQ_zero] at h0
  simp only [ray_sphere_intersect]
  split_ifs
  all_goals first
  | exact hitDark_noHit
  | exact hitDark_record _ _ _ _ he hs.2

theorem hitDark_tri (g : GpuMath) (ray : Ray) {tr : Triangle}
    (ht : triangleDark tr) : hitDark (ray_triangle_intersect g ray tr) := by
  have he : toQ tr.emissionStrength = 0 := by
    have h0 := ht.1
    rwa [F.eqv_iff, toQ_zero] at h0
  simp only [ray_triangle_intersect]
  split_ifs
  all_goals first
  | exact hitDark_noHit
  | exact hitDark_record _ _ _ _ he ht.2

theorem wgslGet_mem_or_default {α : Type} [Inhabited α] (l : List α) (i : Nat) :
    wgslGet l i = default ∨ wgslGet l i ∈ l := by
  unfold wgslGet
  split_ifs with h
  · exact Or.inl rfl
  · right
    have hlen : min i (l.length - 1) < l.length := by
      have : 0 < l.length := Nat.pos_of_ne_zero h
      omega
    rw [List.getD_eq_getElem?_getD, List.getElem?_eq_getElem hlen, Option.getD_some]
    exact List.getElem_mem _

theorem triangleDark_wgslGet {tris : List Triangle}
    (h : ∀ t ∈ tris, triangleDark t) (i : Nat) : triangleDark (wgslGet tris i) := by
  rcases wgslGet_mem_or_default tris i with hd | hm
  · rw [hd]
    decide
  · exact h _ hm

theorem hitDark_leafScan (g : GpuMath) (sc : SceneArrays) (ray : Ray)
    (hd : ∀ t ∈ sc.triangles, triangleDark t) (tstart : Nat) :
    ∀ k i closest, hitDark closest →
      hitDark (bvhLeafScan g sc ray tstart i k closest) := by
  intro k
  induction k with
  | zero => intro i closest hc; exact hc
  | succ n ih =>
    intro i closest hc
    simp only [bvhLeafScan]
    apply ih
    split_ifs
    · exact hitDark_tri g ray (triangleDark_wgslGet hd _)
    · exact hc

theorem hitDark_bvhLoop (g : GpuMath) (sc : SceneArrays) (ray : Ray)
    (hd : ∀ t ∈ sc.triangles, triangleDark t) :
    ∀ fuel stack ptr closest, hitDark closest →
      hitDark (bvhLoop g sc ray fuel stack ptr closest) := by
  intro fuel
  induction fuel with
  | zero => intro stack ptr closest hc; exact hc
  | succ n ih =>
    intro stack ptr closest hc
    simp only [bvhLoop]
    split_ifs
    all_goals first
    | exact hc
    | exact ih _ _ _ hc
    | exact ih _ _ _ (hitDark_leafScan g sc ray hd _ _ _ _ hc)

theorem hitDark_foldl {β : Type} (P : β → Prop) (step : HitInfo → β → HitInfo)
    (hstep : ∀ c b, P b → hitDark c → hitDark (step c b)) :
    ∀ (l : List β), (∀ b ∈ l, P b) → ∀ c, hitDark c → hitDark (l.foldl step c) := by
  intro l
  induction l with
  | nil => intro _ c hc; exact hc
  | cons b rest ih =>
    intro hl c hc
    simp only [List.foldl_cons]
    exact ih (fun x hx => hl x (List.mem_cons_of_mem _ hx))
      _ (hstep c b (hl b (List.mem_cons_self _ _)) hc)

theorem hitDark_sphereScan (g : GpuMath) (ray : Ray) {spheres : List Sphere}
    (h : ∀ s ∈ spheres, sphereDark s) : hitDark (sphereScan g spheres ray) := by
  unfold sphereScan
  refine hitDark_foldl sphereDark _ ?_ spheres h noHit hitDark_noHit
  intro c b hb hc
  simp only
  split_ifs
  · exact hitDark_sphere g ray hb
  · exact hc

theorem hitDark_ray_bvh (g : GpuMath) (sc : SceneArrays) (ray : Ray) (fuel : Nat)
    (hd : ∀ t ∈ sc.triangles, triangleDark t) :
    hitDark (ray_bvh_triangles g sc ray fuel) := by
  unfold ray_bvh_triangles
  split_ifs
  · exact hitDark_noHit
  · exact hitDark_bvhLoop g sc ray hd _ _ _ _ hitDark_noHit

theorem hitDark_ray_all (g : GpuMath) (sc : SceneArrays) (ray : Ray) (fuel : Nat)
    (hd : sceneDark sc) : hitDark (ray_all g sc ray fuel) := by
  simp only [ray_all]
  split_ifs
  · exact hitDark_ray_bvh g sc ray fuel hd.2
  · exact hitDark_sphereScan g ray hd.1

theorem lightStatsFold_dark (g : GpuMath) :
    ∀ (l : List Triangle), (∀ t ∈ l, t.emissionStrength.eqv F.zero) →
    ∀ (acc : F × Nat),
      (l.foldl (fun (acc : F × Nat) tri =>
        if tri.emissionStrength.le F.zero then acc
        else (acc.1.add (lightPower g tri), acc.2 + 1)) acc) = acc := by
  intro l
  induction l with
  | nil => intro _ acc; rfl
  | cons t rest ih =>
    intro hl acc
    have hc : t.emissionStrength.le F.zero := by
      have h0 := hl t (List.mem_cons_self _ _)
      rw [F.eqv_iff, toQ_zero] at h0
      rw [F.le_iff, toQ_zero, h0]
    simp only [List.foldl_cons]
    rw [if_pos hc]
    exact ih (fun x hx => hl x (List.mem_cons_of_mem _ hx)) acc

theorem sample_light_dark (g : GpuMath) (sc : SceneArrays) (p : V3) (st : Nat)
    (hd : ∀ t ∈ sc.triangles, triangleDark t) :
    sample_light_triangles g sc p st = (zeroLightSample, st) := by
  simp only [sample_light_triangles]
  rw [lightStatsFold_dark g sc.triangles (fun t ht => (hd t ht).1) (F.zero, 0)]
  rw [if_pos (Or.inl rfl)]
  rfl

theorem q20pow_ge_one (e : Nat) : (1 : ℚ) ≤ 20 ^ e := by
  induction e with
  | zero => norm_num
  | succ n ih => rw [pow_succ]; nlinarith

theorem q20pow_mono {a b : Nat} (h : a ≤ b) : (20 : ℚ) ^ a ≤ 20 ^ b := by
  obtain ⟨k, rfl⟩ := Nat.exists_eq_add_of_le h
  rw [pow_add]
  nlinarith [q20pow_ge_one a, q20pow_ge_one k,
    pow_nonneg (by norm_num : (0:ℚ) ≤ 20) a]

theorem rr_p_bounds (lum : F) :
    1/20 ≤ toQ (lum.clamp (F.frac 5 100) (F.frac 95 100)) ∧
    toQ (lum.clamp (F.frac 5 100) (F.frac 95 100)) ≤ 19/20 := by
  rw [toQ_clamp, toQ_frac 5 100 (by norm_num), toQ_frac 95 100 (by norm_num)]
  constructor
  · refine le_min (le_trans (by norm_num) (le_max_right _ _)) (by norm_num)
  · exact le_trans (min_le_right _ _) (by norm_num)

theorem toQ_sky_x : toQ sky_color.x = 2/5 := by
  show toQ ((F.frac 4 10).mul F.one) = 2/5
  rw [toQ_mul, toQ_one, toQ_frac 4 10 (by norm_num)]
  norm_num

theorem toQ_sky_y : toQ sky_color.y = 2/5 := by
  show toQ ((F.frac 4 10).mul F.one) = 2/5
  rw [toQ_mul, toQ_one, toQ_frac 4 10 (by norm_num)]
  norm_num

theorem toQ_sky_z : toQ sky_color.z = 2/5 := by
  show toQ ((F.frac 4 10).mul F.one) = 2/5
  rw [toQ_mul, toQ_one, toQ_frac 4 10 (by norm_num)]
  norm_num

theorem toQ_light2 (light : V3) (w : F) (e c : V3) (cond : Prop) [Decidable cond]
    (hex : toQ e.x = 0) (hey : toQ e.y = 0) (hez : toQ e.z = 0) :
    toQ (if cond then vadd light (vscale w (vmul e c)) else light).x = toQ light.x ∧
    toQ (if cond then vadd light (vscale w (vmul e c)) else light).y = toQ light.y ∧
    toQ (if cond then vadd light (vscale w (vmul e c)) else light).z = toQ light.z := by
  split_ifs
  · refine ⟨?_, ?_, ?_⟩
    · show toQ (light.x.add (w.mul (e.x.mul c.x))) = toQ light.x
      rw [toQ_add, toQ_mul, toQ_mul, hex]
      ring
    · show toQ (light.y.add (w.mul (e.y.mul c.y))) = toQ light.y
      rw [toQ_add, toQ_mul, toQ_mul, hey]
      ring
    · show toQ (light.z.add (w.mul (e.z.mul c.z))) = toQ light.z
      rw [toQ_add, toQ_mul, toQ_mul, hez]
      ring
  · exact ⟨rfl, rfl, rfl⟩

theorem rrDivBound_step (n i : Nat) : rrDivBound n (i + 1) ≤ rrDivBound (n + 1) i := by
  simp only [rrDivBound]
  omega

theorem rrDivBound_step_ge {m i : Nat} (h : 3 ≤ i) :
    rrDivBound (m + 1 + 1) i = rrDivBound (m + 1) (i + 1) + 1 := by
  simp only [rrDivBound]
  omega

theorem survive_comp_bound {rec L c2 c p : ℚ} {m i : Nat} (hi3 : 3 ≤ i)
    (hrec : rec ≤ L + 2/5 * (c2 / p) * 20 ^ rrDivBound (m + 1) (i + 1))
    (hc2 : c2 ≤ c) (hc : 0 ≤ c) (hp : 1/20 ≤ p) :
    rec ≤ L + 2/5 * c * 20 ^ rrDivBound (m + 1 + 1) i := by
  rw [rrDivBound_step_ge hi3, pow_succ]
  have hppos : 0 < p := lt_of_lt_of_le (by norm_num) hp
  have h1 : c2 / p ≤ 20 * c := by
    rw [div_le_iff₀ hppos]
    nlinarith [mul_nonneg hc (by linarith : (0:ℚ) ≤ p - 1/20)]
  have hpw : (0:ℚ) ≤ 20 ^ rrDivBound (m + 1) (i + 1) := pow_nonneg (by norm_num) _
  nlinarith [mul_le_mul_of_nonneg_right h1 hpw]

theorem norr_comp_bound {rec L c2 c : ℚ} {n i : Nat}
    (hrec : rec ≤ L + 2/5 * c2 * 20 ^ rrDivBound n (i + 1))
    (hc2 : c2 ≤ c) (hc : 0 ≤ c) :
    rec ≤ L + 2/5 * c * 20 ^ rrDivBound (n + 1) i := by
  have hmono := q20pow_mono (rrDivBound_step n i)
  have hpw : (0:ℚ) ≤ 20 ^ rrDivBound n (i + 1) := pow_nonneg (by norm_num) _
  nlinarith [mul_le_mul_of_nonneg_right hc2 hpw, mul_le_mul_of_nonneg_left hmono hc]

set_option maxHeartbeats 2000000 in
theorem rayTraceLoop_dark_bound (g : GpuMath) (sc : SceneArrays) (fuelT : Nat)
    (hd : sceneDark sc) :
    ∀ rem i ray (color light : V3) (isSpec : Bool) (state : Nat),
      0 ≤ toQ color.x → 0 ≤ toQ color.y → 0 ≤ toQ color.z →
      toQ (rayTraceLoop g sc fuelT rem i ray color light isSpec state).1.x ≤
          toQ light.x + 2/5 * toQ color.x * 20 ^ rrDivBound rem i ∧
      toQ (rayTraceLoop g sc fuelT rem i ray color light isSpec state).1.y ≤
          toQ light.y + 2/5 * toQ color.y * 20 ^ rrDivBound rem i ∧
      toQ (rayTraceLoop g sc fuelT rem i ray color light isSpec state).1.z ≤
          toQ light.z + 2/5 * toQ color.z * 20 ^ rrDivBound rem i := by
  intro rem
  induction rem with
  | zero =>
    intro i ray color light isSpec state hcx hcy hcz
    have hp : (0:ℚ) ≤ 20 ^ rrDivBound 0 i := pow_nonneg (by norm_num) _
    refine ⟨?_, ?_, ?_⟩
    · show toQ light.x ≤ _
      linarith [mul_nonneg (mul_nonneg (by norm_num : (0:ℚ) ≤ 2/5) hcx) hp]
    · show toQ light.y ≤ _
      linarith [mul_nonneg (mul_nonneg (by norm_num : (0:ℚ) ≤ 2/5) hcy) hp]
    · show toQ light.z ≤ _
      linarith [mul_nonneg (mul_nonneg (by norm_num : (0:ℚ) ≤ 2/5) hcz) hp]
  | succ n ih =>
    intro i ray color light isSpec state hcx hcy hcz
    simp only [rayTraceLoop]
    by_cases hmiss : (ray_all g sc ray fuelT).t.lt F.zero
    · rw [if_pos hmiss]
      have hp1 : (1:ℚ) ≤ 20 ^ rrDivBound (n+1) i := q20pow_ge_one _
      refine ⟨?_, ?_, ?_⟩
      · show toQ (light.x.add (sky_color.x.mul color.x)) ≤ _
        rw [toQ_add, toQ_mul, toQ_sky_x]
        linarith [mul_le_mul_of_nonneg_left hp1 (mul_nonneg (by norm_num : (0:ℚ) ≤ 2/5) hcx)]
      · show toQ (light.y.add (sky_color.y.mul color.y)) ≤ _
        rw [toQ_add, toQ_mul, toQ_sky_y]
        linarith [mul_le_mul_of_nonneg_left hp1 (mul_nonneg (by norm_num : (0:ℚ) ≤ 2/5) hcy)]
      · show toQ (light.z.add (sky_color.z.mul color.z)) ≤ _
        rw [toQ_add, toQ_mul, toQ_sky_z]
        linarith [mul_le_mul_of_nonneg_left hp1 (mul_nonneg (by norm_num : (0:ℚ) ≤ 2/5) hcz)]
    · rw [if_neg hmiss, sample_light_dark g sc _ state hd.2]
      simp only []
      have hpdf0 : ¬ F.zero.lt zeroLightSample.pdf := by decide
      rw [if_neg hpdf0]
      set H : HitInfo := ray_all g sc ray fuelT with hH
      have hhd : hitDark H := by rw [hH]; exact hitDark_ray_all g sc ray fuelT hd
      obtain ⟨hex, hey, hez, hx0, hx1, hy0, hy1, hz0, hz1⟩ := hhd
      set C2 : V3 := vmul color H.color with hC2
      obtain ⟨hl2x, hl2y, hl2z⟩ := toQ_light2 light
        (power_heuristic (brdf_pdf H.normal (vneg (normalizeV g ray.direction))) (F.frac 1 1000))
        H.emission color
        ((i = 0 ∧ (F.frac 1 100).lt ((H.emission.x.add H.emission.y).add H.emission.z)) ∨
          isSpec = true) hex hey hez
      have hC2x : toQ C2.x = toQ color.x * toQ H.color.x := by
        rw [hC2]; exact toQ_mul _ _
      have hC2y : toQ C2.y = toQ color.y * toQ H.color.y := by
        rw [hC2]; exact toQ_mul _ _
      have hC2z : toQ C2.z = toQ color.z * toQ H.color.z := by
        rw [hC2]; exact toQ_mul _ _
      have hC2x0 : 0 ≤ toQ C2.x := by rw [hC2x]; exact mul_nonneg hcx hx0
      have hC2y0 : 0 ≤ toQ C2.y := by rw [hC2y]; exact mul_nonneg hcy hy0
      have hC2z0 : 0 ≤ toQ C2.z := by rw [hC2z]; exact mul_nonneg hcz hz0
      have hC2xle : toQ C2.x ≤ toQ color.x := by
        rw [hC2x]; linarith [mul_le_mul_of_nonneg_left hx1 hcx]
      have hC2yle : toQ C2.y ≤ toQ color.y := by
        rw [hC2y]; linarith [mul_le_mul_of_nonneg_left hy1 hcy]
      have hC2zle : toQ C2.z ≤ toQ color.z := by
        rw [hC2z]; linarith [mul_le_mul_of_nonneg_left hz1 hcz]
      by_cases hbrk : ((C2.x.add C2.y).add C2.z).lt (F.frac 1 100)
      · rw [if_pos hbrk]
        simp only []
        rw [hl2x, hl2y, hl2z]
        have hp0 : (0:ℚ) ≤ 20 ^ rrDivBound (n+1) i := pow_nonneg (by norm_num) _
        exact ⟨by linarith [mul_nonneg (mul_nonneg (by norm_num : (0:ℚ) ≤ 2/5) hcx) hp0],
          by linarith [mul_nonneg (mul_nonneg (by norm_num : (0:ℚ) ≤ 2/5) hcy) hp0],
          by linarith [mul_nonneg (mul_nonneg (by norm_num : (0:ℚ) ≤ 2/5) hcz) hp0]⟩
      · rw [if_neg hbrk]
        by_cases hi3 : 3 ≤ i
        · rw [if_pos hi3]
          have hPb := rr_p_bounds (luminance C2)
          set P : F := (luminance C2).clamp (F.frac 5 100) (F.frac 95 100) with hPdef
          have hPpos : 0 < toQ P := lt_of_lt_of_le (by norm_num) hPb.1
          by_cases hkill : P.lt (rand_f state).2
          · rw [if_pos hkill]
            simp only []
            rw [hl2x, hl2y, hl2z]
            have hp0 : (0:ℚ) ≤ 20 ^ rrDivBound (n+1) i := pow_nonneg (by norm_num) _
            exact ⟨by linarith [mul_nonneg (mul_nonneg (by norm_num : (0:ℚ) ≤ 2/5) hcx) hp0],
              by linarith [mul_nonneg (mul_nonneg (by norm_num : (0:ℚ) ≤ 2/5) hcy) hp0],
              by linarith [mul_nonneg (mul_nonneg (by norm_num : (0:ℚ) ≤ 2/5) hcz) hp0]⟩
          · rw [if_neg hkill]
            simp only []
            have hdivx : toQ (vdivF C2 P).x = toQ C2.x / toQ P := toQ_div _ _
            have hdivy : toQ (vdivF C2 P).y = toQ C2.y / toQ P := toQ_div _ _
            have hdivz : toQ (vdivF C2 P).z = toQ C2.z / toQ P := toQ_div _ _
            have h3x : 0 ≤ toQ (vdivF C2 P).x := by
              rw [hdivx]; exact div_nonneg hC2x0 (le_of_lt hPpos)
            have h3y : 0 ≤ toQ (vdivF C2 P).y := by
              rw [hdivy]; exact div_nonneg hC2y0 (le_of_lt hPpos)
            have h3z : 0 ≤ toQ (vdivF C2 P).z := by
              rw [hdivz]; exact div_nonneg hC2z0 (le_of_lt hPpos)
            rcases n with _ | m
            · simp only [rayTraceLoop]
              rw [hl2x, hl2y, hl2z]
              have hp0 : (0:ℚ) ≤ 20 ^ rrDivBound (0+1) i := pow_nonneg (by norm_num) _
              exact ⟨by linarith [mul_nonneg (mul_nonneg (by norm_num : (0:ℚ) ≤ 2/5) hcx) hp0],
                by linarith [mul_nonneg (mul_nonneg (by norm_num : (0:ℚ) ≤ 2/5) hcy) hp0],
                by linarith [mul_nonneg (mul_nonneg (by norm_num : (0:ℚ) ≤ 2/5) hcz) hp0]⟩
            · have hrec := ih (i+1)
                ⟨vadd (vadd ray.origin (vscale H.t ray.direction)) (vscale (F.frac 1 100) H.normal),
                 normalizeV g (mixV (sample_cosine_hemisphere g H.normal (rand_f (rand_f state).1).1).1
                   (reflectV ray.direction H.normal)
                   (if (rand_f (rand_f state).1).2.le H.specularProbability then H.smoothness else F.zero))⟩
                (vdivF C2 P)
                (if (i = 0 ∧ (F.frac 1 100).lt ((H.emission.x.add H.emission.y).add H.emission.z)) ∨
                    isSpec = true then
                  vadd light (vscale (power_heuristic (brdf_pdf H.normal (vneg (normalizeV g ray.direction)))
                    (F.frac 1 1000)) (vmul H.emission color))
                 else light)
                (decide ((rand_f (rand_f state).1).2.le H.specularProbability))
                (sample_cosine_hemisphere g H.normal (rand_f (rand_f state).1).1).2
                h3x h3y h3z
              rw [hl2x, hl2y, hl2z, hdivx, hdivy, hdivz] at hrec
              exact ⟨survive_comp_bound hi3 hrec.1 hC2xle hcx hPb.1,
                survive_comp_bound hi3 hrec.2.1 hC2yle hcy hPb.1,
                survive_comp_bound hi3 hrec.2.2 hC2zle hcz hPb.1⟩
        · rw [if_neg hi3]
          simp only []
          have hrec := ih (i+1)
            ⟨vadd (vadd ray.origin (vscale H.t ray.direction)) (vscale (F.frac 1 100) H.normal),
             normalizeV g (mixV (sample_cosine_hemisphere g H.normal (rand_f state).1).1
               (reflectV ray.direction H.normal)
               (if (rand_f state).2.le H.specularProbability then H.smoothness else F.zero))⟩
            C2
            (if (i = 0 ∧ (F.frac 1 100).lt ((H.emission.x.add H.emission.y).add H.emission.z)) ∨
                isSpec = true then
              vadd light (vscale (power_heuristic (brdf_pdf H.normal (vneg (normalizeV g ray.direction)))
                (F.frac 1 1000)) (vmul H.emission color))
             else light)
            (decide ((rand_f state).2.le H.specularProbability))
            (sample_cosine_hemisphere g H.normal (rand_f state).1).2
            hC2x0 hC2y0 hC2z0
          rw [hl2x, hl2y, hl2z] at hrec
          exact ⟨norr_comp_bound hrec.1 hC2xle hcx,
            norr_comp_bound hrec.2.1 hC2yle hcy,
            norr_comp_bound hrec.2.2 hC2zle hcz⟩

/-- C5 (amended): for a scene whose materials all have zero emission strength
and colors in `[0,1]³`, every radiance value returned by `ray_trace` with the
app's bounce budget (`maxBounceCount ≤ 6`) is bounded componentwise by
`400 · sky`: a path can survive at most two Russian-roulette rounds before
the sky term is added, and each survival divides the throughput by
`p ≥ 0.05`, so `L ≤ (1/0.05)² · sky = 400 · sky`.  (The original bound
`L ≤ sky` is refuted by `C5_counterexample`.) -/
theorem C5_amended (g : GpuMath) (sc : SceneArrays) (hd : sceneDark sc)
    (ray : Ray) (maxBounceCount : Nat) (hmb : maxBounceCount ≤ 6)
    (state fuelT : Nat) :
    vle (ray_trace g sc ray maxBounceCount state fuelT).1 skyBound := by
  have h1 : (0:ℚ) ≤ toQ vone.x := by
    show (0:ℚ) ≤ toQ F.one
    rw [toQ_one]
    norm_num
  have hb := rayTraceLoop_dark_bound g sc fuelT hd maxBounceCount 0 ray vone V3.zero
    false state h1 h1 h1
  have hz : toQ V3.zero.x = 0 := toQ_zero
  have ho : toQ vone.x = 1 := toQ_one
  have hexp : rrDivBound maxBounceCount 0 ≤ 2 := by
    simp only [rrDivBound]
    omega
  have hpow : (20:ℚ) ^ rrDivBound maxBounceCount 0 ≤ 400 := by
    calc (20:ℚ) ^ rrDivBound maxBounceCount 0 ≤ 20 ^ 2 := q20pow_mono hexp
    _ = 400 := by norm_num
  have hsky : toQ skyBound.x = 160 := by
    show toQ ((F.ofNat 400).mul ((F.frac 4 10).mul F.one)) = 160
    rw [toQ_mul, toQ_mul, toQ_ofNat, toQ_one, toQ_frac 4 10 (by norm_num)]
    norm_num
  simp only [ray_trace]
  refine ⟨?_, ?_, ?_⟩
  · rw [F.le_iff, hsky]
    have := hb.1
    rw [hz, ho] at this
    linarith
  · rw [F.le_iff]
    have hsky' : toQ skyBound.y = 160 := hsky
    rw [hsky']
    have := hb.2.1
    rw [show toQ V3.zero.y = 0 from toQ_zero, show toQ vone.y = 1 from toQ_one] at this
    linarith
  · rw [F.le_iff]
    have hsky' : toQ skyBound.z = 160 := hsky
    rw [hsky']
    have := hb.2.2
    rw [show toQ V3.zero.z = 0 from toQ_zero, show toQ vone.z = 1 from toQ_one] at this
    linarith

/-- Witness: the amended bound applied to a concrete dark scene (the empty
one), one bounce, RNG seed 0. -/
theorem C5_amended_witness :
    vle (ray_trace gExact ⟨[], [], [], []⟩ centerRay 1 0 1).1 skyBound :=
  C5_amended gExact ⟨[], [], [], []⟩ (by decide) centerRay 1 (by norm_num) 0 1
